import Mathlib

/-!
Verification of the tt-tracker derived-state computation engine.

The definitions below are shallow embeddings of the JavaScript sources:
  * `src/js/stats.js`   — stats, leaderboard, head-to-head, achievements
  * `src/lib/helpers.js` — ELO formulas, `calculateMatchElo`, `countSetWins`,
    `determineWinner`
  * `src/db-service.js` (`POST /elo/recalculate`) — the full-history replay
  * `src/server.js` (`PUT /api/matches/:id`) — the match-edit route core

JavaScript numbers reached by `Number()` coercion are modelled as `JsNum`
(`NaN` or an exact rational); the ELO formulas, which use `Math.pow` on real
exponents, are modelled over `ℝ` with `Math.round x = ⌊x + 1/2⌋`.
-/

/-- A JavaScript number after `Number()` coercion: `NaN` or a finite value
(modelled exactly as a rational; the repository's data never produces
infinities in the places analysed here). -/
inductive JsNum where
  | nan : JsNum
  | num : ℚ → JsNum
deriving DecidableEq
/-- JavaScript `+` on numbers: `NaN` is absorbing. -/
def JsNum.add : JsNum → JsNum → JsNum
  | JsNum.num a, JsNum.num b => JsNum.num (a + b)
  | _, _ => JsNum.nan
/-- JavaScript `>` on numbers: every comparison involving `NaN` is `false`. -/
def JsNum.gt : JsNum → JsNum → Bool
  | JsNum.num a, JsNum.num b => decide (b < a)
  | _, _ => false
/-- JavaScript `>=` on numbers: every comparison involving `NaN` is `false`. -/
def JsNum.ge : JsNum → JsNum → Bool
  | JsNum.num a, JsNum.num b => decide (b ≤ a)
  | _, _ => false
/-- JavaScript `===` between a coerced number and a numeric literal
(`NaN === x` is `false`). -/
def JsNum.eqNum : JsNum → ℚ → Bool
  | JsNum.num a, b => decide (a = b)
  | JsNum.nan, _ => false
/-- One set of a match: the two sides' scores as stored (already coerced). -/
structure SetScore where
  p1 : JsNum
  p2 : JsNum
deriving DecidableEq
/-- A match record (API shape produced by `dbToMatch` in `src/lib/helpers.js`):
`player1Id`/`player2Id` are the required team leads, `player3Id`/`player4Id`
the optional doubles partners, `winnerId` is `null` for a draw. -/
structure Match where
  id : String
  date : String
  player1Id : String
  player2Id : String
  player3Id : Option String
  player4Id : Option String
  isDoubles : Bool
  winnerId : Option String
  sets : List SetScore
  note : String
deriving DecidableEq
/-- A player row; `eloRating` is `none` when the column is absent. -/
structure Player where
  id : String
  eloRating : Option ℤ
deriving DecidableEq
/-- `countSetWins` (`src/js/stats.js` lines 3-9 and `src/lib/helpers.js`
lines 98-104): per-side set-win tally; a `NaN` score loses every
comparison, so such a set counts for neither side. -/
def countSetWins (sets : List SetScore) : ℕ × ℕ :=
  sets.foldl
    (fun acc s =>
      if s.p1.gt s.p2 then (acc.1 + 1, acc.2)
      else if s.p2.gt s.p1 then (acc.1, acc.2 + 1)
      else acc)
    (0, 0)
/-- `determineWinner` (`src/lib/helpers.js` lines 106-111). -/
def determineWinner (sets : List SetScore) (p1Id p2Id : String) : Option String :=
  let c := countSetWins sets
  if c.2 < c.1 then some p1Id
  else if c.1 < c.2 then some p2Id
  else none
/-- `isPlayerInMatch` (`src/js/stats.js` lines 11-14). -/
def isPlayerInMatch (m : Match) (playerId : String) : Bool :=
  m.player1Id == playerId || m.player2Id == playerId ||
    m.player3Id == some playerId || m.player4Id == some playerId
/-- A result letter pushed onto `recentForm`. -/
inductive Form where
  | W : Form
  | L : Form
  | D : Form
deriving DecidableEq
/-- `isP1Side` as computed inside `computeStats`: the player occupies a
seat of side 1 (`player1Id` or `player3Id`). -/
def isP1Side (m : Match) (playerId : String) : Bool :=
  m.player1Id == playerId || m.player3Id == some playerId
/-- The player-side score of a set (JS local `mine`). -/
def mineOf (side : Bool) (s : SetScore) : JsNum := if side then s.p1 else s.p2
/-- The opponent-side score of a set (JS local `theirs`). -/
def theirsOf (side : Bool) (s : SetScore) : JsNum := if side then s.p2 else s.p1
/-- The `won` expression of `computeStats` (`src/js/stats.js` lines 24-26):
for doubles a null `winnerId` is falsy, otherwise the winning side is
compared with the player's side; for singles `winnerId === playerId`. -/
def wonMatch (m : Match) (playerId : String) : Bool :=
  if m.isDoubles then
    match m.winnerId with
    | none => false
    | some w => if w == m.player1Id then isP1Side m playerId else !(isP1Side m playerId)
  else m.winnerId == some playerId
/-- The record returned by `computeStats`. -/
structure Stats where
  playerId : String
  wins : ℕ
  losses : ℕ
  draws : ℕ
  totalMatches : ℕ
  winRate : ℤ
  setsWon : ℕ
  setsLost : ℕ
  pointsWon : JsNum
  pointsLost : JsNum
  streak : ℤ
  recentForm : List Form
deriving DecidableEq
/-- The mutable accumulator of `computeStats`'s main loop. -/
structure SAcc where
  wins : ℕ
  losses : ℕ
  draws : ℕ
  setsWon : ℕ
  setsLost : ℕ
  pointsWon : JsNum
  pointsLost : JsNum
  recentForm : List Form
deriving DecidableEq
/-- The inner per-set loop body of `computeStats` (lines 39-46). -/
def setStep (side : Bool) (acc : SAcc) (s : SetScore) : SAcc :=
  let mine := if side then s.p1 else s.p2
  let theirs := if side then s.p2 else s.p1
  let acc1 :=
    if mine.gt theirs then { acc with setsWon := acc.setsWon + 1 }
    else if theirs.gt mine then { acc with setsLost := acc.setsLost + 1 }
    else acc
  { acc1 with pointsWon := acc1.pointsWon.add mine,
              pointsLost := acc1.pointsLost.add theirs }
/-- The per-match loop body of `computeStats` (lines 22-47). -/
def matchStep (playerId : String) (acc : SAcc) (m : Match) : SAcc :=
  let side := isP1Side m playerId
  let acc1 :=
    if m.winnerId.isNone then
      { acc with draws := acc.draws + 1, recentForm := acc.recentForm ++ [Form.D] }
    else if wonMatch m playerId then
      { acc with wins := acc.wins + 1, recentForm := acc.recentForm ++ [Form.W] }
    else
      { acc with losses := acc.losses + 1, recentForm := acc.recentForm ++ [Form.L] }
  m.sets.foldl (setStep side) acc1
/-- JavaScript `Math.round` on an exact rational: `⌊x + 1/2⌋`. -/
def jsRoundQ (x : ℚ) : ℤ := ⌊x + 1 / 2⌋
/-- The streak loop of `computeStats` (lines 52-59): add ±1 while the
result equals the most recent one, stop at the first difference. -/
def streakLoop (dir : Form) : List Form → ℤ
  | [] => 0
  | f :: fs => if f = dir then (if dir = Form.W then 1 else -1) + streakLoop dir fs else 0
/-- Initial accumulator of `computeStats`. -/
def initSAcc : SAcc :=
  { wins := 0, losses := 0, draws := 0, setsWon := 0, setsLost := 0,
    pointsWon := JsNum.num 0, pointsLost := JsNum.num 0, recentForm := [] }
/-- `computeStats` (`src/js/stats.js` lines 16-66). -/
def computeStats (playerId : String) (ms : List Match) : Stats :=
  let playerMatches := ms.filter (fun m => isPlayerInMatch m playerId)
  let acc := playerMatches.foldl (matchStep playerId) initSAcc
  let total := acc.wins + acc.losses + acc.draws
  let winRate : ℤ :=
    if 0 < total then jsRoundQ (((acc.wins : ℚ) / (total : ℚ)) * 100) else 0
  let streak : ℤ :=
    match acc.recentForm with
    | [] => 0
    | f :: _ => if f = Form.D then 0 else streakLoop f acc.recentForm
  { playerId := playerId, wins := acc.wins, losses := acc.losses, draws := acc.draws,
    totalMatches := playerMatches.length, winRate := winRate,
    setsWon := acc.setsWon, setsLost := acc.setsLost,
    pointsWon := acc.pointsWon, pointsLost := acc.pointsLost,
    streak := streak, recentForm := acc.recentForm.take 5 }
/-- JavaScript `v || d` on an optional integer: `undefined` and `0` are
falsy and yield the default. -/
def jsOrInt (v : Option ℤ) (d : ℤ) : ℤ :=
  match v with
  | none => d
  | some x => if x = 0 then d else x
/-- One leaderboard row. -/
structure LBEntry where
  player : Player
  stats : Stats
deriving DecidableEq
/-- The comparator passed to `.sort` in `getLeaderboard`
(`src/js/stats.js` lines 71-77). -/
def lbCompare (a b : LBEntry) : ℤ :=
  let eloA := jsOrInt a.player.eloRating 1200
  let eloB := jsOrInt b.player.eloRating 1200
  if eloB ≠ eloA then eloB - eloA
  else if b.stats.winRate ≠ a.stats.winRate then b.stats.winRate - a.stats.winRate
  else (b.stats.wins : ℤ) - (a.stats.wins : ℤ)
/-- Insert an element into an already-sorted list, after every element `y`
with `lbCompare y x ≤ 0` (so after every element it ties with). -/
def lbInsert (x : LBEntry) : List LBEntry → List LBEntry
  | [] => [x]
  | y :: ys => if lbCompare y x ≤ 0 then y :: lbInsert x ys else x :: y :: ys
/-- Stable insertion sort.  `Array.prototype.sort` is required by the
ECMAScript specification to be stable, and for a consistent comparator
(the `lbCompare` lexicographic comparator is one) every stable sort
produces the same output, so this models the source's `.sort`. -/
def lbSort (l : List LBEntry) : List LBEntry :=
  l.foldl (fun acc x => lbInsert x acc) []
/-- `getLeaderboard` (`src/js/stats.js` lines 68-78). -/
def getLeaderboard (players : List Player) (ms : List Match) : List LBEntry :=
  lbSort (players.map (fun p => { player := p, stats := computeStats p.id ms }))
/-- The record returned by `computeH2H`. -/
structure H2H where
  p1Wins : ℕ
  p2Wins : ℕ
  total : ℕ
deriving DecidableEq
/-- `computeH2H` (`src/js/stats.js` lines 80-93). -/
def computeH2H (p1Id p2Id : String) (ms : List Match) : H2H :=
  let h2hMatches := ms.filter (fun m => isPlayerInMatch m p1Id && isPlayerInMatch m p2Id)
  let acc := h2hMatches.foldl
    (fun (acc : ℕ × ℕ) m =>
      match m.winnerId with
      | none => acc
      | some w =>
        let p1Side := m.player1Id == p1Id || m.player3Id == some p1Id
        let winnerIsP1Side := w == m.player1Id
        if p1Side == winnerIsP1Side then (acc.1 + 1, acc.2) else (acc.1, acc.2 + 1))
    (0, 0)
  { p1Wins := acc.1, p2Wins := acc.2, total := h2hMatches.length }
/-- `hasComeback` (`src/js/stats.js` lines 127-145): some won match with at
least 3 sets whose first two sets were both lost on the player's side
(`mine >= theirs` breaks the "lost" condition; with `NaN` the comparison is
`false`, so a `NaN` set still counts as lost). -/
def hasComeback (playerId : String) (playerMatches : List Match) : Bool :=
  playerMatches.any (fun m =>
    if m.winnerId.isNone || m.sets.length < 3 then false
    else
      let side := isP1Side m playerId
      let won :=
        if m.isDoubles then (if m.winnerId == some m.player1Id then side else !side)
        else m.winnerId == some playerId
      if !won then false
      else
        (m.sets.take 2).all (fun s =>
          !((if side then s.p1 else s.p2).ge (if side then s.p2 else s.p1))))
/-- The loop body of `hasCleanSweep` for one match: a won match in which
every set reads exactly 11-0 from the player's side. -/
def cleanSweepBody (playerId : String) (m : Match) : Bool :=
  if m.winnerId.isNone || m.sets.isEmpty then false
  else
    let side := isP1Side m playerId
    let won :=
      if m.isDoubles then (if m.winnerId == some m.player1Id then side else !side)
      else m.winnerId == some playerId
    if !won then false
    else
      m.sets.all (fun s => (mineOf side s).eqNum 11 && (theirsOf side s).eqNum 0)
/-- `hasCleanSweep` (`src/js/stats.js` lines 147-163). -/
def hasCleanSweep (playerId : String) (playerMatches : List Match) : Bool :=
  playerMatches.any (cleanSweepBody playerId)
/-- `counts[k] = (counts[k] || 0) + 1` on a JavaScript object modelled as an
association list in key-insertion order. -/
def bumpCount : List (String × ℕ) → String → List (String × ℕ)
  | [], k => [(k, 1)]
  | (k1, v) :: rest, k =>
    if k1 == k then (k1, v + 1) :: rest else (k1, v) :: bumpCount rest k
/-- The per-match body of `hasRival`'s outer loop (`src/js/stats.js`
lines 167-175): skip matches without the player, then bump the counter of
every *other* player appearing anywhere in the match (opposing side or
doubles partner alike). -/
def rivalScan (playerId : String) (allPlayers : List Player)
    (counts : List (String × ℕ)) (m : Match) : List (String × ℕ) :=
  if isPlayerInMatch m playerId then
    allPlayers.foldl
      (fun c p =>
        if p.id == playerId then c
        else if isPlayerInMatch m p.id then bumpCount c p.id else c)
      counts
  else counts
/-- `hasRival` (`src/js/stats.js` lines 165-177). -/
def hasRival (playerId : String) (allMatches : List Match) (allPlayers : List Player) : Bool :=
  ((allMatches.foldl (rivalScan playerId allPlayers) []).map Prod.snd).any (fun c => 10 ≤ c)
/-- One entry of `ACHIEVEMENT_DEFS`; the icon string is presentational and
omitted, `check` is `none` for the three scan-based badges. -/
structure AchievementDef where
  id : String
  check : Option (Stats → ℤ → Bool)
/-- `ACHIEVEMENT_DEFS` (`src/js/stats.js` lines 111-125). -/
def ACHIEVEMENT_DEFS : List AchievementDef := [
  { id := "first_win", check := some (fun s _ => decide (1 ≤ s.wins)) },
  { id := "getting_started", check := some (fun s _ => decide (5 ≤ s.wins)) },
  { id := "champion", check := some (fun s _ => decide (25 ≤ s.wins)) },
  { id := "legend", check := some (fun s _ => decide (50 ≤ s.wins)) },
  { id := "on_fire", check := some (fun s _ => decide (5 ≤ s.streak)) },
  { id := "unstoppable", check := some (fun s _ => decide (10 ≤ s.streak)) },
  { id := "rising_star", check := some (fun _ elo => decide (1300 ≤ elo)) },
  { id := "elite", check := some (fun _ elo => decide (1500 ≤ elo)) },
  { id := "dedicated", check := some (fun s _ => decide (25 ≤ s.totalMatches)) },
  { id := "century", check := some (fun s _ => decide (100 ≤ s.totalMatches)) },
  { id := "comeback_king", check := none },
  { id := "clean_sweep", check := none },
  { id := "rival", check := none }]
/-- `computeAchievements` (`src/js/stats.js` lines 179-194), returning
`(id, unlocked)` pairs (the icon is presentational and omitted). -/
def computeAchievements (playerId : String) (stats : Stats) (eloRating : ℤ)
    (allMatches : List Match) (allPlayers : List Player) : List (String × Bool) :=
  let playerMatches := allMatches.filter (fun m => isPlayerInMatch m playerId)
  ACHIEVEMENT_DEFS.map (fun d =>
    let unlocked :=
      if d.id == "comeback_king" then hasComeback playerId playerMatches
      else if d.id == "clean_sweep" then hasCleanSweep playerId playerMatches
      else if d.id == "rival" then hasRival playerId allMatches allPlayers
      else (d.check.getD (fun _ _ => false)) stats eloRating
    (d.id, unlocked))
/-- Replace a set containing a `NaN` score by `{p1: 0, p2: 0}` — the
hypothetical defensive reading the specification describes. -/
def replaceBadSet (s : SetScore) : SetScore :=
  if s.p1 = JsNum.nan ∨ s.p2 = JsNum.nan then { p1 := JsNum.num 0, p2 := JsNum.num 0 } else s
/-- Apply `replaceBadSet` to every set of a match. -/
def replaceBadSets (m : Match) : Match :=
  { m with sets := m.sets.map replaceBadSet }
/-- `eloExpected` (`src/lib/helpers.js` lines 19-21):
`1 / (1 + 10^((opponentRating - rating) / 400))`, over the reals. -/
noncomputable def eloExpected (rating opponentRating : ℝ) : ℝ :=
  1 / (1 + (10 : ℝ) ^ ((opponentRating - rating) / 400))
/-- JavaScript `Math.round` over the reals: `⌊x + 1/2⌋` (half rounds up). -/
noncomputable def jsRound (x : ℝ) : ℤ := ⌊x + 1 / 2⌋
/-- `eloChange` (`src/lib/helpers.js` lines 23-26):
`Math.round(rating + K * (actualScore - eloExpected rating opponentRating))`;
the source's default `K = 32` is passed explicitly at every call site. -/
noncomputable def eloChange (rating opponentRating actualScore K : ℝ) : ℤ :=
  jsRound (rating + K * (actualScore - eloExpected rating opponentRating))
/-- The in-memory ratings object of the replay, as a JavaScript object in
key-insertion order.  Keys are `Option String` because `calculateMatchElo`
indexes with `match.player3_id`, which can be `null`. -/
abbrev RMap := List (Option String × ℤ)
/-- JavaScript property read `m[k]`. -/
def objGet (m : RMap) (k : Option String) : Option ℤ :=
  (m.find? (fun e => e.1 == k)).map Prod.snd
/-- JavaScript property write `m[k] = v`: update in place, else append. -/
def objSet : RMap → Option String → ℤ → RMap
  | [], k, v => [(k, v)]
  | (k1, v1) :: rest, k, v =>
    if k1 == k then (k1, v) :: rest else (k1, v1) :: objSet rest k v
/-- `playerRatings[pid] || 1200`: a missing key — and, by JavaScript
falsiness, a stored rating of exactly `0` — reads as 1200. -/
def ratingOr1200 (m : RMap) (k : Option String) : ℤ :=
  match objGet m k with
  | none => 1200
  | some v => if v = 0 then 1200 else v
/-- One entry returned by `calculateMatchElo`. -/
structure EloEntry where
  playerId : Option String
  ratingBefore : ℤ
  ratingAfter : ℤ
deriving DecidableEq
/-- `calculateMatchElo` (`src/lib/helpers.js` lines 28-71).  Doubles: the
averages of the two teams' pre-match ratings are formed, but each member's
new rating is `eloChange(ownBefore, opposingTeamAverage, teamScore, 32)` —
the comparison point is the opposing team's average while the base rating
and the expected-score argument are the member's *own* rating. -/
noncomputable def calculateMatchElo (m : Match) (playerRatings : RMap) : List EloEntry :=
  if m.isDoubles then
    let p1 : Option String := some m.player1Id
    let p2 : Option String := some m.player2Id
    let p3 : Option String := m.player3Id
    let p4 : Option String := m.player4Id
    let team1Rating : ℝ :=
      ((ratingOr1200 playerRatings p1 : ℝ) + (ratingOr1200 playerRatings p3 : ℝ)) / 2
    let team2Rating : ℝ :=
      ((ratingOr1200 playerRatings p2 : ℝ) + (ratingOr1200 playerRatings p4 : ℝ)) / 2
    let team1Won := m.winnerId == some m.player1Id
    let t1Score : ℝ := if team1Won then 1 else 0
    let t2Score : ℝ := if team1Won then 0 else 1
    let entry1 := fun pid =>
      let before := ratingOr1200 playerRatings pid
      { playerId := pid, ratingBefore := before,
        ratingAfter := eloChange (before : ℝ) team2Rating t1Score 32 : EloEntry }
    let entry2 := fun pid =>
      let before := ratingOr1200 playerRatings pid
      { playerId := pid, ratingBefore := before,
        ratingAfter := eloChange (before : ℝ) team1Rating t2Score 32 : EloEntry }
    [entry1 p1, entry1 p3, entry2 p2, entry2 p4]
  else
    let r1 := ratingOr1200 playerRatings (some m.player1Id)
    let r2 := ratingOr1200 playerRatings (some m.player2Id)
    let p1Won := m.winnerId == some m.player1Id
    [{ playerId := some m.player1Id, ratingBefore := r1,
       ratingAfter := eloChange (r1 : ℝ) (r2 : ℝ) (if p1Won then 1 else 0) 32 },
     { playerId := some m.player2Id, ratingBefore := r2,
       ratingAfter := eloChange (r2 : ℝ) (r1 : ℝ) (if p1Won then 0 else 1) 32 }]
/-- An `elo_history` row as compared by the specification: the random
row id is excluded, `createdAt` is the match's own date. -/
structure HistEntry where
  playerId : Option String
  matchId : String
  ratingBefore : ℤ
  ratingAfter : ℤ
  createdAt : String
deriving DecidableEq
/-- One iteration of the replay's match loop (`src/db-service.js`
lines 395-410): a draw is skipped entirely; otherwise the entries of
`calculateMatchElo` (computed against the ratings map *before* the match)
are written to the history and folded into the ratings map. -/
noncomputable def replayStep (st : RMap × List HistEntry) (m : Match) : RMap × List HistEntry :=
  match m.winnerId with
  | none => st
  | some _ =>
    (calculateMatchElo m st.1).foldl
      (fun st2 e =>
        (objSet st2.1 e.playerId e.ratingAfter,
         st2.2 ++ [{ playerId := e.playerId, matchId := m.id, ratingBefore := e.ratingBefore,
                     ratingAfter := e.ratingAfter, createdAt := m.date }]))
      st
/-- The persistent state the replay reads and writes.  `matchLog` models
the `matches` table as enumerated by `getAllMatchesByDate`, i.e. in
ascending-date order; the replay never modifies it. -/
structure Db where
  players : List Player
  matchLog : List Match
  history : List HistEntry
deriving DecidableEq
/-- The replay scan (`src/db-service.js` lines 387-410): the ratings map is
seeded with 1200 for every player, then every match is processed in
stored order. -/
noncomputable def replayScan (players : List Player) (ms : List Match) :
    RMap × List HistEntry :=
  ms.foldl replayStep (players.foldl (fun r p => objSet r (some p.id) 1200) [], [])
/-- `UPDATE players SET elo_rating = 1200` (`resetAllElo`). -/
def resetPlayers (players : List Player) : List Player :=
  players.map (fun p => { p with eloRating := some 1200 })
/-- The write-back loop over `Object.entries(ratings)` (`src/db-service.js`
lines 413-415): each key's rating is written to the player with that id. -/
def writeBack (players : List Player) (r : RMap) : List Player :=
  r.foldl
    (fun ps e =>
      ps.map (fun p => if some p.id == e.1 then { p with eloRating := some e.2 } else p))
    players
/-- `POST /elo/recalculate` (`src/db-service.js` lines 381-422): reset all
ratings, discard the whole history, replay every match in date order,
write the final ratings back. -/
noncomputable def replay (db : Db) : Db :=
  let ps0 := resetPlayers db.players
  let s := replayScan ps0 db.matchLog
  { players := writeBack ps0 s.1, matchLog := db.matchLog, history := s.2 }
/-- The body of a `PUT /api/matches/:id` request; `none` means the field
was absent (`undefined`).  `locationId` does not interact with anything
verified here and is omitted. -/
structure EditBody where
  sets : Option (List SetScore)
  note : Option String
  isDoubles : Option Bool
  player3Id : Option (Option String)
  player4Id : Option (Option String)
/-- JavaScript `String.prototype.trim`, modelled structurally over the
character list (drop leading and trailing whitespace). -/
def jsTrim (s : String) : String :=
  ⟨((s.data.dropWhile Char.isWhitespace).reverse.dropWhile Char.isWhitespace).reverse⟩
/-- The per-set validation of the edit route (`src/server.js` lines
508-520): both scores finite, within 0..99, and different. -/
def validSetScore (s : SetScore) : Bool :=
  match s.p1, s.p2 with
  | JsNum.num a, JsNum.num b =>
    decide (0 ≤ a) && decide (a ≤ 99) && decide (0 ≤ b) && decide (b ≤ 99) && decide (a ≠ b)
  | _, _ => false
/-- The core of `PUT /api/matches/:id` (`src/server.js` lines 478-551),
after the fetch and authorisation steps: validate, recompute the winner
from the final sets, store, and fire `recalculateElo()`.  The returned
`Bool` records whether the rating replay was triggered; the route calls
`recalculateElo()` after *every* successful edit, so it is always `true`
on success.  `none` models a 400 response. -/
def putMatch (existing : Match) (body : EditBody) : Option (Match × Bool) :=
  let finalIsDoubles := body.isDoubles.getD existing.isDoubles
  let doublesOk : Bool :=
    if finalIsDoubles then
      match body.player3Id.getD existing.player3Id, body.player4Id.getD existing.player4Id with
      | some a, some b => decide ([existing.player1Id, existing.player2Id, a, b].Nodup)
      | _, _ => false
    else true
  if !doublesOk then none
  else
    let setsOk : Bool :=
      match body.sets with
      | none => true
      | some ss => !ss.isEmpty && decide (ss.length ≤ 9) && ss.all validSetScore
    if !setsOk then none
    else
      let noteOk : Bool :=
        match body.note with
        | none => true
        | some n => decide ((jsTrim n).length ≤ 500)
      if !noteOk then none
      else
        let finalSets := body.sets.getD existing.sets
        let wid := determineWinner finalSets existing.player1Id existing.player2Id
        let updated : Match :=
          { existing with
            sets := finalSets,
            winnerId := wid,
            note := (body.note.map jsTrim).getD existing.note,
            isDoubles := body.isDoubles.getD existing.isDoubles,
            player3Id := body.player3Id.getD existing.player3Id,
            player4Id := body.player4Id.getD existing.player4Id }
        some (updated, true)
/-- Replace the note of the match with the given id, leaving everything
else untouched — the log mutation performed by a note-only edit. -/
def setMatchNote (ms : List Match) (mid : String) (note2 : String) : List Match :=
  ms.map (fun m => if m.id == mid then { m with note := note2 } else m)
/-- Player ids used in concrete scenarios. -/
def pidA : String := "a"
def pidB : String := "b"
def pidC : String := "c"
def pidD : String := "d"
def pidE : String := "e"
def pidF : String := "f"
/-- A decisive doubles match: team 1 is `a` (lead) with partner `c`,
team 2 is `b` (lead) with partner `d`; team 1 wins. -/
def mDoubles : Match :=
  { id := "m1", date := "100", player1Id := pidA, player2Id := pidB,
    player3Id := some pidC, player4Id := some pidD, isDoubles := true,
    winnerId := some pidA,
    sets := [{ p1 := JsNum.num 11, p2 := JsNum.num 5 }], note := "" }
/-- Pre-match ratings for `mDoubles`: the two winners are rated 1600 and
800 (team average 1200), both losers 1200. -/
def ratingsUneven : RMap :=
  [(some pidA, 1600), (some pidC, 800), (some pidB, 1200), (some pidD, 1200)]
/-- The per-entry rating deltas of a match. -/
noncomputable def eloDeltas (m : Match) (r : RMap) : List ℤ :=
  (calculateMatchElo m r).map (fun e => e.ratingAfter - e.ratingBefore)
/-- The result letter `computeStats` pushes for one match. -/
def formOf (pid : String) (m : Match) : Form :=
  if m.winnerId.isNone then Form.D else if wonMatch m pid then Form.W else Form.L
/-- A decisive singles match that `a` wins against `b`. -/
def mWinA : Match :=
  { id := "mw", date := "1", player1Id := pidA, player2Id := pidB,
    player3Id := none, player4Id := none, isDoubles := false,
    winnerId := some pidA,
    sets := [{ p1 := JsNum.num 11, p2 := JsNum.num 7 }], note := "" }
/-- A decisive singles match that `a` loses to `b`. -/
def mLossA : Match :=
  { id := "ml", date := "2", player1Id := pidA, player2Id := pidB,
    player3Id := none, player4Id := none, isDoubles := false,
    winnerId := some pidB,
    sets := [{ p1 := JsNum.num 7, p2 := JsNum.num 11 }], note := "" }
/-- Ten consecutive wins for player `a`, most recent first. -/
def msTenWins : List Match := List.replicate 10 mWinA
/-- A note string used in concrete scenarios. -/
def noteW : String := "hi"
/-- The note-only edit body: every field absent except `note`. -/
def noteOnlyBody : EditBody :=
  { sets := none, note := some noteW, isDoubles := none,
    player3Id := none, player4Id := none }
/-- A match id used in concrete scenarios. -/
def midW : String := "mw"
/-- A one-match database snapshot. -/
def dbOne : Db :=
  { players := [{ id := pidA, eloRating := some 1200 }, { id := pidB, eloRating := some 1200 }],
    matchLog := [mWinA], history := [] }
/-- The rating finally written for a given player id by the write-back
loop: the last matching ratings entry, else the original value. -/
def wbVal (r : RMap) (id0 : String) (d : Option ℤ) : Option ℤ :=
  r.foldl (fun acc e => if some id0 == e.1 then some e.2 else acc) d
/-- The history entry written for one `calculateMatchElo` entry. -/
def toHist (m : Match) (e : EloEntry) : HistEntry :=
  { playerId := e.playerId, matchId := m.id, ratingBefore := e.ratingBefore,
    ratingAfter := e.ratingAfter, createdAt := m.date }
/-- A drawn singles match (one set each way). -/
def mDrawA : Match :=
  { id := "md", date := "3", player1Id := pidA, player2Id := pidB,
    player3Id := none, player4Id := none, isDoubles := false,
    winnerId := none,
    sets := [{ p1 := JsNum.num 11, p2 := JsNum.num 7 },
             { p1 := JsNum.num 7, p2 := JsNum.num 11 }], note := "" }
/-- The three-component sort key of a leaderboard row: effective rating
(1200 when absent), winRate, win count. -/
def lbKey (e : LBEntry) : ℤ × ℤ × ℤ :=
  (jsOrInt e.player.eloRating 1200, e.stats.winRate, (e.stats.wins : ℤ))
/-- `a` may precede `b`: descending lexicographic comparison on
(eloRating default 1200, winRate, wins). -/
def lbKeyGe (a b : LBEntry) : Prop :=
  (lbKey b).1 < (lbKey a).1 ∨
    ((lbKey b).1 = (lbKey a).1 ∧
      ((lbKey b).2.1 < (lbKey a).2.1 ∨
        ((lbKey b).2.1 = (lbKey a).2.1 ∧ (lbKey b).2.2 ≤ (lbKey a).2.2)))
/-- Number of matches two players share (any seats, any sides). -/
def sharedCount (pid q : String) (ms : List Match) : ℕ :=
  ms.countP (fun m => isPlayerInMatch m pid && isPlayerInMatch m q)
/-- Number of matches in which `q` appears on the side opposing `pid` —
the "opponent" reading of the rival badge. -/
def opposingCount (pid q : String) (ms : List Match) : ℕ :=
  ms.countP (fun m =>
    isPlayerInMatch m pid && isPlayerInMatch m q &&
      (isP1Side m pid != isP1Side m q))
/-- Doubles: `a` and partner `b` (seats 1 and 3) against `c` and `d`. -/
def mRival1 : Match :=
  { id := "r1", date := "10", player1Id := pidA, player2Id := pidC,
    player3Id := some pidB, player4Id := some pidD, isDoubles := true,
    winnerId := some pidA,
    sets := [{ p1 := JsNum.num 11, p2 := JsNum.num 5 }], note := "" }
/-- Doubles: `a` and partner `b` against `e` and `f`. -/
def mRival2 : Match :=
  { id := "r2", date := "11", player1Id := pidA, player2Id := pidE,
    player3Id := some pidB, player4Id := some pidF, isDoubles := true,
    winnerId := some pidA,
    sets := [{ p1 := JsNum.num 11, p2 := JsNum.num 5 }], note := "" }
/-- Ten doubles matches of `a`, always partnered with `b`: five against
`c`/`d` and five against `e`/`f`. -/
def msRival : List Match := List.replicate 5 mRival1 ++ List.replicate 5 mRival2
/-- The six players of the rival scenario. -/
def playersRival : List Player :=
  [{ id := pidA, eloRating := some 1200 }, { id := pidB, eloRating := some 1200 },
   { id := pidC, eloRating := some 1200 }, { id := pidD, eloRating := some 1200 },
   { id := pidE, eloRating := some 1200 }, { id := pidF, eloRating := some 1200 }]
/-- Read a counter from the counts object (0 when absent). -/
def cnt (c : List (String × ℕ)) (k : String) : ℕ :=
  ((c.find? (fun e => e.1 == k)).map Prod.snd).getD 0
/-- A singles match of `a` with a NaN score in its only set. -/
def mNanSet : Match :=
  { id := "mn", date := "4", player1Id := pidA, player2Id := pidB,
    player3Id := none, player4Id := none, isDoubles := false,
    winnerId := some pidA,
    sets := [{ p1 := JsNum.nan, p2 := JsNum.num 5 }], note := "" }
/-- A won three-set match whose first two sets carry NaN scores. -/
def mComeback : Match :=
  { id := "mc", date := "5", player1Id := pidA, player2Id := pidB,
    player3Id := none, player4Id := none, isDoubles := false,
    winnerId := some pidA,
    sets := [{ p1 := JsNum.nan, p2 := JsNum.num 0 },
             { p1 := JsNum.nan, p2 := JsNum.num 0 },
             { p1 := JsNum.num 11, p2 := JsNum.num 0 }], note := "" }
/-- With equal ratings the expected score is exactly one half. -/
theorem eloExpected_equal (r : ℝ) : eloExpected r r = 1 / 2 := by
  unfold eloExpected
  rw [sub_self, zero_div, Real.rpow_zero]
  norm_num
/-- Winning against an equal-rated opponent from 1200 yields 1216. -/
theorem eloChange_win_1200 : eloChange 1200 1200 1 32 = 1216 := by
  unfold eloChange jsRound
  rw [eloExpected_equal, Int.floor_eq_iff]
  constructor <;> norm_num
/-- Losing against an equal-rated opponent from 1200 yields 1184. -/
theorem eloChange_loss_1200 : eloChange 1200 1200 0 32 = 1184 := by
  unfold eloChange jsRound
  rw [eloExpected_equal, Int.floor_eq_iff]
  constructor <;> norm_num
/-- Rating 1600 beating an opposing average of 1200 gains 3 points
(expected score `10/11`). -/
theorem eloChange_1600_beats_1200 : eloChange 1600 1200 1 32 = 1603 := by
  unfold eloChange jsRound eloExpected
  rw [show ((1200 : ℝ) - 1600) / 400 = ((-1 : ℤ) : ℝ) by norm_num, Real.rpow_intCast]
  rw [Int.floor_eq_iff]
  constructor <;> norm_num
/-- Rating 800 beating an opposing average of 1200 gains 29 points
(expected score `1/11`). -/
theorem eloChange_800_beats_1200 : eloChange 800 1200 1 32 = 829 := by
  unfold eloChange jsRound eloExpected
  rw [show ((1200 : ℝ) - 800) / 400 = ((1 : ℤ) : ℝ) by norm_num, Real.rpow_intCast]
  rw [Int.floor_eq_iff]
  constructor <;> norm_num
/-- C9: the rating-change function satisfies the exact K=32 reference
values — `eloExpected 1200 1200 = 1/2`, `eloChange(1200,1200,1,32) = 1216`
and `eloChange(1200,1200,0,32) = 1184`, i.e. the rounding of
`rating + K * (actualScore - expected)`. -/
theorem elo_reference_values :
    eloExpected 1200 1200 = 1 / 2 ∧
      eloChange 1200 1200 1 32 = 1216 ∧ eloChange 1200 1200 0 32 = 1184 :=
  ⟨eloExpected_equal 1200, eloChange_win_1200, eloChange_loss_1200⟩
/-- C1: evidence that `calculateMatchElo` does NOT give teammates an
identical delta.  For `mDoubles` with ratings 1600/800 versus 1200/1200,
the code awards +3 to the 1600-rated winner and +29 to the 800-rated
partner (each delta uses the player's own rating against the opposing
team average), while the inline comment, the unit test's intent and the
specification all call for one shared team delta (+16 here).  The losing
teammates, being equally rated, happen to receive the same −16. -/
theorem calculateMatchElo_doubles_unequal_deltas :
    eloDeltas mDoubles ratingsUneven = [3, 29, -16, -16] := by
  have hA : ratingOr1200 ratingsUneven (some pidA) = 1600 := by decide
  have hB : ratingOr1200 ratingsUneven (some pidB) = 1200 := by decide
  have hC : ratingOr1200 ratingsUneven (some pidC) = 800 := by decide
  have hD : ratingOr1200 ratingsUneven (some pidD) = 1200 := by decide
  unfold eloDeltas calculateMatchElo
  simp only [mDoubles, beq_self_eq_true, if_true, List.map_cons, List.map_nil]
  rw [hA, hB, hC, hD]
  norm_num [eloChange_1600_beats_1200, eloChange_800_beats_1200, eloChange_loss_1200]
/-- The per-set loop leaves `recentForm` untouched. -/
theorem recentForm_setStep (side : Bool) (a : SAcc) (s : SetScore) :
    (setStep side a s).recentForm = a.recentForm := by
  simp only [setStep]
  split_ifs <;> rfl
/-- The whole per-set fold leaves `recentForm` untouched. -/
theorem recentForm_setsFold (side : Bool) (l : List SetScore) :
    ∀ a : SAcc, (l.foldl (setStep side) a).recentForm = a.recentForm := by
  induction l with
  | nil => intro a; rfl
  | cons s l ih => intro a; rw [List.foldl_cons, ih, recentForm_setStep]
/-- One match appends exactly its result letter to `recentForm`. -/
theorem recentForm_matchStep (pid : String) (a : SAcc) (m : Match) :
    (matchStep pid a m).recentForm = a.recentForm ++ [formOf pid m] := by
  simp only [matchStep, formOf]
  rw [recentForm_setsFold]
  split_ifs <;> rfl
/-- The match fold turns `recentForm` into the full result-letter list. -/
theorem recentForm_fold (pid : String) (l : List Match) :
    ∀ a : SAcc, (l.foldl (matchStep pid) a).recentForm = a.recentForm ++ l.map (formOf pid) := by
  induction l with
  | nil => intro a; simp
  | cons m l ih =>
    intro a
    rw [List.foldl_cons, ih, recentForm_matchStep, List.map_cons]
    simp
/-- The streak loop counts the leading run of its direction, signed. -/
theorem streakLoop_takeWhile (dir : Form) (l : List Form) :
    streakLoop dir l =
      (if dir = Form.W then 1 else -1) * ((l.takeWhile (fun g => g == dir)).length : ℤ) := by
  induction l with
  | nil => simp [streakLoop]
  | cons f fs ih =>
    by_cases h : f = dir
    · subst h
      simp only [streakLoop, if_pos rfl, List.takeWhile, beq_self_eq_true, ih,
        List.length_cons]
      push_cast
      ring
    · simp only [streakLoop, if_neg h, List.takeWhile]
      rw [show (f == dir) = false by simpa using h]
      simp
/-- C7: `streak` counts the leading run of identical non-draw results of
the player's result list in input order (most-recent-first for the
callers): 0 on an empty list or a leading draw, `+length` of the leading
win run, `-length` of the leading loss run; in particular results
`[W, L, W]` give 1 and `[L, L, W]` give −2. -/
theorem computeStats_streak_spec :
    (∀ (pid : String) (ms : List Match),
        (computeStats pid ms).streak =
          match (ms.filter (fun m => isPlayerInMatch m pid)).map (formOf pid) with
          | [] => 0
          | f :: fs =>
            if f = Form.D then 0
            else (if f = Form.W then 1 else -1) *
              (((f :: fs).takeWhile (fun g => g == f)).length : ℤ))
    ∧ (computeStats pidA [mWinA, mLossA, mWinA]).streak = 1
    ∧ (computeStats pidA [mLossA, mLossA, mWinA]).streak = -2 := by
  refine ⟨?_, by decide, by decide⟩
  intro pid ms
  have hforms :
      ((ms.filter (fun m => isPlayerInMatch m pid)).foldl (matchStep pid) initSAcc).recentForm =
        (ms.filter (fun m => isPlayerInMatch m pid)).map (formOf pid) := by
    rw [recentForm_fold]
    rfl
  have hstreak :
      (computeStats pid ms).streak =
        match
          ((ms.filter (fun m => isPlayerInMatch m pid)).foldl (matchStep pid) initSAcc).recentForm
        with
        | [] => (0 : ℤ)
        | f :: _ =>
          if f = Form.D then 0
          else
            streakLoop f
              ((ms.filter (fun m => isPlayerInMatch m pid)).foldl (matchStep pid)
                  initSAcc).recentForm := rfl
  rw [hstreak]
  rw [hforms]
  rcases h : (ms.filter (fun m => isPlayerInMatch m pid)).map (formOf pid) with _ | ⟨f, fs⟩
  · rfl
  · by_cases hd : f = Form.D
    · simp [hd]
    · simp only [if_neg hd]
      rw [streakLoop_takeWhile]
/-- C10: `streak` is computed over the player's entire filtered match list,
not the 5-element `recentForm` window: after ten straight wins the streak
is 10 while `recentForm` still has 5 entries, and the `unstoppable` badge
(streak ≥ 10) unlocks. -/
theorem streak_exceeds_recentForm_window :
    (computeStats pidA msTenWins).streak = 10 ∧
      (computeStats pidA msTenWins).recentForm.length = 5 ∧
      ("unstoppable", true) ∈
        computeAchievements pidA (computeStats pidA msTenWins) 1200 msTenWins
          [{ id := pidA, eloRating := some 1200 }, { id := pidB, eloRating := some 1200 }] := by
  refine ⟨by decide, by decide, by decide⟩
/-- C5, counterexample: a successful edit that changes only the free-text
note DOES trigger the rating replay — `PUT /api/matches/:id` calls
`recalculateElo()` after every successful update, unconditionally. -/
theorem putMatch_note_triggers_replay :
    (putMatch mWinA noteOnlyBody).map Prod.snd = some true := by
  decide
/-- Replacing a match's note changes nothing the replay reads. -/
theorem replayStep_note (st : RMap × List HistEntry) (m : Match) (note2 : String) :
    replayStep st { m with note := note2 } = replayStep st m := rfl
/-- The replay scan is invariant under note edits of the match log. -/
theorem replayScan_setNote (ps : List Player) (ms : List Match) (mid : String) (note2 : String) :
    replayScan ps (setMatchNote ms mid note2) = replayScan ps ms := by
  unfold replayScan setMatchNote
  rw [List.foldl_map]
  have hf : (fun (st : RMap × List HistEntry) m =>
      replayStep st (if m.id == mid then { m with note := note2 } else m)) = replayStep := by
    funext st m
    split
    · exact replayStep_note st m note2
    · rfl
  rw [hf]
/-- C5, amended: an edit request that changes only a match's free-text note
(on a singles match whose stored winner agrees with its sets) succeeds,
stores the match unchanged except for the trimmed note, and *does* trigger
the rating replay; however, the replay over the note-edited match log
produces exactly the same player ratings and the same history entries as
the replay over the original log, so ratings and history are unchanged. -/
theorem putMatch_note_edit_amended :
    (∀ (existing : Match) (note2 : String),
        existing.isDoubles = false →
        (jsTrim note2).length ≤ 500 →
        determineWinner existing.sets existing.player1Id existing.player2Id =
            existing.winnerId →
        putMatch existing
            { sets := none, note := some note2, isDoubles := none,
              player3Id := none, player4Id := none } =
          some ({ existing with note := jsTrim note2 }, true))
    ∧ ∀ (db : Db) (mid : String) (note2 : String),
        (replay { db with matchLog := setMatchNote db.matchLog mid note2 }).players =
            (replay db).players ∧
          (replay { db with matchLog := setMatchNote db.matchLog mid note2 }).history =
            (replay db).history := by
  constructor
  · intro existing note2 hd hn hw
    simp only [putMatch, Option.getD_none, Option.getD_some, Option.map_some]
    rw [hd]
    simp only [Bool.false_eq_true, if_false, ite_self]
    rw [if_neg (by simp), if_neg (by simp), if_neg (by simpa using hn)]
    rw [hw]
    rfl
  · intro db mid note2
    constructor <;> simp [replay, replayScan_setNote]
/-- Witness for the amended C5 at concrete inputs. -/
theorem putMatch_note_edit_amended_witness :
    putMatch mWinA noteOnlyBody = some ({ mWinA with note := noteW }, true) ∧
      (replay { dbOne with matchLog := setMatchNote dbOne.matchLog midW noteW }).players =
        (replay dbOne).players := by
  constructor
  · have h := putMatch_note_edit_amended.1 mWinA noteW rfl (by decide) (by decide)
    rw [show jsTrim noteW = noteW from by decide] at h
    exact h
  · exact (putMatch_note_edit_amended.2 dbOne midW noteW).1
/-- The write-back loop acts pointwise on the player list. -/
theorem writeBack_eq_map (r : RMap) :
    ∀ ps : List Player,
      writeBack ps r = ps.map (fun p => { p with eloRating := wbVal r p.id p.eloRating }) := by
  induction r with
  | nil =>
    intro ps
    show ps = _
    have h : (fun p : Player => { p with eloRating := wbVal [] p.id p.eloRating }) =
        fun p => p := by
      funext p
      rfl
    rw [h, List.map_id']
  | cons e r ih =>
    intro ps
    have hstep : writeBack ps (e :: r) =
        writeBack (ps.map fun p =>
          if some p.id == e.1 then { p with eloRating := some e.2 } else p) r := rfl
    rw [hstep, ih, List.map_map]
    congr 1
    funext p
    have hw : ∀ (d : Option ℤ), wbVal (e :: r) p.id d =
        wbVal r p.id (if some p.id == e.1 then some e.2 else d) := fun d => rfl
    simp only [Function.comp]
    rw [hw]
    split
    · rfl
    · rfl
/-- Resetting after a write-back is the same as just resetting. -/
theorem resetPlayers_writeBack (ps : List Player) (r : RMap) :
    resetPlayers (writeBack ps r) = resetPlayers ps := by
  rw [writeBack_eq_map]
  unfold resetPlayers
  rw [List.map_map]
  rfl
/-- Resetting twice is resetting once. -/
theorem resetPlayers_resetPlayers (ps : List Player) :
    resetPlayers (resetPlayers ps) = resetPlayers ps := by
  unfold resetPlayers
  rw [List.map_map]
  rfl
/-- C4: the full-history replay is idempotent — replaying an unchanged
players-and-matches snapshot a second time yields exactly the same final
`eloRating` for every player and the same history entries (compared on
playerId, matchId, ratingBefore, ratingAfter, createdAt) as the first
run.  The replay reads only player ids and the match log, both of which
it preserves. -/
theorem replay_idempotent (db : Db) : replay (replay db) = replay db := by
  have hps : resetPlayers (replay db).players = resetPlayers db.players := by
    rw [show resetPlayers (replay db).players =
        resetPlayers (writeBack (resetPlayers db.players)
          (replayScan (resetPlayers db.players) db.matchLog).1) from rfl]
    rw [resetPlayers_writeBack, resetPlayers_resetPlayers]
  show ({ players := writeBack (resetPlayers (replay db).players)
            (replayScan (resetPlayers (replay db).players) (replay db).matchLog).1,
          matchLog := (replay db).matchLog,
          history := (replayScan (resetPlayers (replay db).players)
              (replay db).matchLog).2 } : Db)
      = replay db
  rw [show (replay db).matchLog = db.matchLog from rfl, hps]
  rfl
/-- `calculateMatchElo` always returns one entry per participant:
4 for doubles, 2 for singles, whatever the ratings. -/
theorem calculateMatchElo_length (m : Match) (r : RMap) :
    (calculateMatchElo m r).length = if m.isDoubles then 4 else 2 := by
  unfold calculateMatchElo
  split <;> rfl
/-- The inner entry loop of the replay appends exactly the entries'
history rows. -/
theorem replayInner_snd (m : Match) (entries : List EloEntry) :
    ∀ st : RMap × List HistEntry,
      (entries.foldl
          (fun st2 e =>
            (objSet st2.1 e.playerId e.ratingAfter,
             st2.2 ++ [{ playerId := e.playerId, matchId := m.id, ratingBefore := e.ratingBefore,
                         ratingAfter := e.ratingAfter, createdAt := m.date }]))
          st).2 =
        st.2 ++ entries.map (toHist m) := by
  induction entries with
  | nil => intro st; simp
  | cons e es ih =>
    intro st
    rw [List.foldl_cons, ih]
    simp [toHist]
/-- How one replay step changes the history count for a fixed match id:
nothing for a draw, one per participant when the id matches. -/
theorem replayStep_countP (st : RMap × List HistEntry) (m : Match) (mid : String) :
    ((replayStep st m).2).countP (fun e => e.matchId == mid) =
      st.2.countP (fun e => e.matchId == mid) +
        (if m.winnerId.isSome && m.id == mid then (if m.isDoubles then 4 else 2) else 0) := by
  rcases hw : m.winnerId with _ | w
  · simp [replayStep, hw]
  · have hstep : replayStep st m =
        (calculateMatchElo m st.1).foldl
          (fun st2 e =>
            (objSet st2.1 e.playerId e.ratingAfter,
             st2.2 ++ [{ playerId := e.playerId, matchId := m.id, ratingBefore := e.ratingBefore,
                         ratingAfter := e.ratingAfter, createdAt := m.date }]))
          st := by
      unfold replayStep
      rw [hw]
    rw [hstep, replayInner_snd, List.countP_append]
    congr 1
    rw [List.countP_map]
    rcases hm : m.id == mid with _ | _
    · simp only [hw, Option.isSome_some, Bool.true_and, hm, if_false]
      have : ((fun e => e.matchId == mid) ∘ toHist m) = fun _ => false := by
        funext e
        simp [toHist, hm]
      rw [this, List.countP_false]
      rfl
    · simp only [hw, Option.isSome_some, Bool.true_and, hm, if_true]
      have : ((fun e => e.matchId == mid) ∘ toHist m) = fun _ => true := by
        funext e
        simp [toHist, hm]
      rw [this, List.countP_true, calculateMatchElo_length]
/-- Over a whole fold, history counts add up per processed match. -/
theorem replayFold_countP (mid : String) :
    ∀ (ms : List Match) (st : RMap × List HistEntry),
      ((ms.foldl replayStep st).2).countP (fun e => e.matchId == mid) =
        st.2.countP (fun e => e.matchId == mid) +
          (ms.map (fun m =>
            if m.winnerId.isSome && m.id == mid then (if m.isDoubles then 4 else 2) else 0)).sum := by
  intro ms
  induction ms with
  | nil => intro st; simp
  | cons m ms ih =>
    intro st
    rw [List.foldl_cons, ih, replayStep_countP, List.map_cons, List.sum_cons]
    omega
/-- C6: after a replay over any match log, history entries for a match id
exist iff some decisive match has that id; a draw contributes no entry and
leaves the replay state (ratings map and history) untouched, while every
decisive match contributes one entry per participant (4 for doubles, 2 for
singles). -/
theorem replay_history_iff_decisive :
    (∀ (db : Db) (mid : String),
        (replay db).history.countP (fun e => e.matchId == mid) =
          (db.matchLog.map (fun m =>
            if m.winnerId.isSome && m.id == mid then (if m.isDoubles then 4 else 2)
            else 0)).sum)
    ∧ (∀ (db : Db) (mid : String),
        (∃ e ∈ (replay db).history, e.matchId = mid) ↔
          ∃ m ∈ db.matchLog, m.id = mid ∧ m.winnerId ≠ none)
    ∧ ∀ (st : RMap × List HistEntry) (m : Match),
        m.winnerId = none → replayStep st m = st := by
  have hcount : ∀ (db : Db) (mid : String),
      (replay db).history.countP (fun e => e.matchId == mid) =
        (db.matchLog.map (fun m =>
          if m.winnerId.isSome && m.id == mid then (if m.isDoubles then 4 else 2)
          else 0)).sum := by
    intro db mid
    have h := replayFold_countP mid db.matchLog
      ((resetPlayers db.players).foldl (fun r p => objSet r (some p.id) 1200) [], [])
    rw [show (replay db).history =
        (db.matchLog.foldl replayStep
          ((resetPlayers db.players).foldl (fun r p => objSet r (some p.id) 1200) [],
            [])).2 from rfl]
    rw [h]
    simp
  refine ⟨hcount, ?_, ?_⟩
  · intro db mid
    constructor
    · rintro ⟨e, he, hem⟩
      have hpos : 0 < (replay db).history.countP (fun e => e.matchId == mid) :=
        List.countP_pos_iff.mpr ⟨e, he, by simp [hem]⟩
      rw [hcount db mid] at hpos
      by_contra hno
      push_neg at hno
      have hzero : (db.matchLog.map (fun m =>
          if m.winnerId.isSome && m.id == mid then (if m.isDoubles then 4 else 2)
          else 0)).sum = 0 := by
        apply List.sum_eq_zero
        intro x hx
        rcases List.mem_map.mp hx with ⟨m, hm, rfl⟩
        rcases hcond : (m.winnerId.isSome && (m.id == mid) : Bool) with _ | _
        · simp [hcond]
        · exfalso
          have h1 : m.winnerId.isSome = true := by
            have := hcond
            simp only [Bool.and_eq_true] at this
            exact this.1
          have h2 : m.id = mid := by
            have := hcond
            simp only [Bool.and_eq_true] at this
            simpa using this.2
          have h3 := hno m hm h2
          rw [h3] at h1
          simp at h1
      omega
    · rintro ⟨m, hm, hid, hwin⟩
      have hpos : 0 < (db.matchLog.map (fun m =>
          if m.winnerId.isSome && m.id == mid then (if m.isDoubles then 4 else 2)
          else 0)).sum := by
        rcases Nat.eq_zero_or_pos (db.matchLog.map (fun m =>
            if m.winnerId.isSome && m.id == mid then (if m.isDoubles then 4 else 2)
            else 0)).sum with h0 | h0
        · exfalso
          rw [List.sum_eq_zero_iff] at h0
          have := h0 _ (List.mem_map_of_mem _ hm)
          have hc : (m.winnerId.isSome && (m.id == mid) : Bool) = true := by
            rcases hw : m.winnerId with _ | w
            · exact absurd hw hwin
            · simp [hw, hid]
          rw [hc] at this
          rcases hd : m.isDoubles with _ | _ <;> rw [hd] at this <;> simp at this
        · exact h0
      rw [← hcount db mid] at hpos
      rcases List.countP_pos_iff.mp hpos with ⟨e, he, hpe⟩
      exact ⟨e, he, by simpa using hpe⟩
  · intro st m h
    simp [replayStep, h]
/-- Witness for C6 at concrete inputs: the one decisive singles match of
`dbOne` yields exactly 2 history entries, and a replay step on a drawn
match is the identity. -/
theorem replay_history_iff_decisive_witness :
    (replay dbOne).history.countP (fun e => e.matchId == midW) = 2 ∧
      replayStep ([], []) mDrawA = ([], []) := by
  constructor
  · rw [replay_history_iff_decisive.1 dbOne midW]
    decide
  · exact replay_history_iff_decisive.2.2 ([], []) mDrawA rfl
/-- The comparator agrees with the lexicographic key order. -/
theorem lbCompare_nonpos_iff (a b : LBEntry) : lbCompare a b ≤ 0 ↔ lbKeyGe a b := by
  unfold lbCompare lbKeyGe lbKey
  dsimp only
  split_ifs <;> omega
/-- The comparator order is total. -/
theorem lbCompare_total (a b : LBEntry) : lbCompare a b ≤ 0 ∨ lbCompare b a ≤ 0 := by
  rw [lbCompare_nonpos_iff, lbCompare_nonpos_iff]
  unfold lbKeyGe
  omega
/-- The comparator order is transitive. -/
theorem lbCompare_trans (a b c : LBEntry) :
    lbCompare a b ≤ 0 → lbCompare b c ≤ 0 → lbCompare a c ≤ 0 := by
  rw [lbCompare_nonpos_iff, lbCompare_nonpos_iff, lbCompare_nonpos_iff]
  unfold lbKeyGe
  omega
/-- The comparator reads nothing but the keys. -/
theorem lbCompare_congr {z x : LBEntry} (h : lbKey z = lbKey x) (y : LBEntry) :
    lbCompare y z = lbCompare y x ∧ lbCompare z y = lbCompare x y := by
  have h1 : jsOrInt z.player.eloRating 1200 = jsOrInt x.player.eloRating 1200 :=
    congrArg Prod.fst h
  have h2 : z.stats.winRate = x.stats.winRate := congrArg (fun t => t.2.1) h
  have h3 : ((z.stats.wins : ℤ)) = (x.stats.wins : ℤ) := congrArg (fun t => t.2.2) h
  unfold lbCompare
  rw [h1, h2, h3]
  exact ⟨rfl, rfl⟩
/-- The comparator ties with itself. -/
theorem lbCompare_self (x : LBEntry) : lbCompare x x ≤ 0 := by
  rw [lbCompare_nonpos_iff]
  unfold lbKeyGe
  omega
/-- Insertion produces a permutation of consing. -/
theorem lbInsert_perm (x : LBEntry) : ∀ l : List LBEntry, List.Perm (lbInsert x l) (x :: l) := by
  intro l
  induction l with
  | nil => simp [lbInsert]
  | cons y ys ih =>
    unfold lbInsert
    split
    · exact ((ih.cons y).trans (List.Perm.swap x y ys))
    · exact List.Perm.refl _
/-- The insertion-sort fold is a permutation of the input. -/
theorem lbSort_perm_aux : ∀ (l acc : List LBEntry),
    List.Perm (l.foldl (fun acc x => lbInsert x acc) acc) (acc ++ l) := by
  intro l
  induction l with
  | nil => intro acc; simp
  | cons x xs ih =>
    intro acc
    rw [List.foldl_cons]
    refine (ih (lbInsert x acc)).trans ?_
    have h1 : List.Perm (lbInsert x acc ++ xs) ((x :: acc) ++ xs) :=
      (lbInsert_perm x acc).append_right xs
    exact h1.trans List.perm_middle.symm
/-- Insertion preserves sortedness under the comparator. -/
theorem lbInsert_pairwise (x : LBEntry) :
    ∀ l : List LBEntry, l.Pairwise (fun a b => lbCompare a b ≤ 0) →
      (lbInsert x l).Pairwise (fun a b => lbCompare a b ≤ 0) := by
  intro l
  induction l with
  | nil => intro _; simp [lbInsert]
  | cons y ys ih =>
    intro hp
    rcases List.pairwise_cons.mp hp with ⟨hy, hys⟩
    unfold lbInsert
    split
    case isTrue hc =>
      refine List.pairwise_cons.mpr ⟨?_, ih hys⟩
      intro z hz
      rcases List.mem_cons.mp ((lbInsert_perm x ys).mem_iff.mp hz) with rfl | hz2
      · exact hc
      · exact hy z hz2
    case isFalse hc =>
      refine List.pairwise_cons.mpr ⟨?_, hp⟩
      intro z hz
      rcases List.mem_cons.mp hz with rfl | hz2
      · rcases lbCompare_total z x with h | h
        · exact absurd h hc
        · exact h
      · have hxy : lbCompare x y ≤ 0 := by
          rcases lbCompare_total y x with h | h
          · exact absurd h hc
          · exact h
        exact lbCompare_trans x y z hxy (hy z hz2)
/-- Insertion is stable: among equal keys, the new element lands last. -/
theorem lbInsert_filter (x : LBEntry) (k : ℤ × ℤ × ℤ) :
    ∀ l : List LBEntry, l.Pairwise (fun a b => lbCompare a b ≤ 0) →
      (lbInsert x l).filter (fun e => decide (lbKey e = k)) =
        if lbKey x = k then l.filter (fun e => decide (lbKey e = k)) ++ [x]
        else l.filter (fun e => decide (lbKey e = k)) := by
  intro l
  induction l with
  | nil =>
    intro _
    by_cases hx : lbKey x = k <;> simp [lbInsert, hx]
  | cons y ys ih =>
    intro hp
    rcases List.pairwise_cons.mp hp with ⟨hy, hys⟩
    unfold lbInsert
    split
    case isTrue hc =>
      rw [List.filter_cons, ih hys]
      by_cases hx : lbKey x = k <;> by_cases hyk : lbKey y = k <;>
        simp [hx, hyk, List.filter_cons]
    case isFalse hc =>
      rw [List.filter_cons]
      by_cases hx : lbKey x = k
      · have hempty : (y :: ys).filter (fun e => decide (lbKey e = k)) = [] := by
          rw [List.filter_eq_nil_iff]
          intro z hz
          simp only [decide_eq_true_eq]
          intro hzk
          have hzx : lbKey z = lbKey x := by rw [hzk, hx]
          rcases List.mem_cons.mp hz with rfl | hz2
          · exact hc (by rw [(lbCompare_congr hzx x).2]; exact lbCompare_self x)
          · have hyz := hy z hz2
            rw [(lbCompare_congr hzx y).1] at hyz
            exact hc hyz
        simp [hx, hempty, List.filter_cons]
      · simp [hx, List.filter_cons]
/-- The sort fold preserves sortedness. -/
theorem lbSort_pairwise_aux :
    ∀ (l acc : List LBEntry), acc.Pairwise (fun a b => lbCompare a b ≤ 0) →
      (l.foldl (fun acc x => lbInsert x acc) acc).Pairwise (fun a b => lbCompare a b ≤ 0) := by
  intro l
  induction l with
  | nil => intro acc h; exact h
  | cons x xs ih =>
    intro acc h
    rw [List.foldl_cons]
    exact ih _ (lbInsert_pairwise x acc h)
/-- The sort fold is stable: per key, elements keep their input order. -/
theorem lbSort_filter_aux (k : ℤ × ℤ × ℤ) :
    ∀ (l acc : List LBEntry), acc.Pairwise (fun a b => lbCompare a b ≤ 0) →
      (l.foldl (fun acc x => lbInsert x acc) acc).filter (fun e => decide (lbKey e = k)) =
        acc.filter (fun e => decide (lbKey e = k)) ++ l.filter (fun e => decide (lbKey e = k)) := by
  intro l
  induction l with
  | nil => intro acc _; simp
  | cons x xs ih =>
    intro acc hacc
    rw [List.foldl_cons, ih _ (lbInsert_pairwise x acc hacc), lbInsert_filter x k acc hacc]
    by_cases hx : lbKey x = k <;> simp [hx, List.filter_cons]
/-- C8: `getLeaderboard` pairs every player with their `computeStats`
result (the output is a permutation of that pairing), is sorted descending
lexicographically by (eloRating defaulting to 1200, winRate, wins), and is
stable: for every key value, the rows carrying that key appear in input
order. -/
theorem getLeaderboard_spec :
    ∀ (players : List Player) (ms : List Match),
      List.Perm (getLeaderboard players ms)
          (players.map fun p => ({ player := p, stats := computeStats p.id ms } : LBEntry))
        ∧ (getLeaderboard players ms).Pairwise lbKeyGe
        ∧ ∀ k : ℤ × ℤ × ℤ,
            (getLeaderboard players ms).filter (fun e => decide (lbKey e = k)) =
              (players.map fun p =>
                ({ player := p, stats := computeStats p.id ms } : LBEntry)).filter
                (fun e => decide (lbKey e = k)) := by
  intro players ms
  refine ⟨?_, ?_, ?_⟩
  · have h := lbSort_perm_aux
      (players.map fun p => ({ player := p, stats := computeStats p.id ms } : LBEntry)) []
    simpa [getLeaderboard, lbSort] using h
  · have h := lbSort_pairwise_aux
      (players.map fun p => ({ player := p, stats := computeStats p.id ms } : LBEntry)) []
      List.Pairwise.nil
    exact h.imp fun hab => (lbCompare_nonpos_iff _ _).mp hab
  · intro k
    have h := lbSort_filter_aux k
      (players.map fun p => ({ player := p, stats := computeStats p.id ms } : LBEntry)) []
      List.Pairwise.nil
    simpa [getLeaderboard, lbSort] using h
/-- `countP` over a replicated list. -/
theorem countP_replicate {α : Type} (p : α → Bool) (x : α) :
    ∀ n : ℕ, (List.replicate n x).countP p = if p x then n else 0 := by
  intro n
  induction n with
  | zero => simp
  | succ n ih =>
    rw [List.replicate_succ, List.countP_cons, ih]
    by_cases h : p x <;> simp [h]
/-- C2, counterexample: the rival badge unlocks for `a` although no single
opponent shares more than 5 matches with `a` — the code also counts the
doubles partner `b`, who shares all 10. -/
theorem hasRival_partner_only_counterexample :
    hasRival pidA msRival playersRival = true ∧
      ∀ q : String, opposingCount pidA q msRival ≤ 5 := by
  constructor
  · decide
  · intro q
    unfold opposingCount msRival
    rw [List.countP_append, countP_replicate, countP_replicate]
    by_cases hqc : q = pidC
    · subst hqc; decide
    · by_cases hqd : q = pidD
      · subst hqd; decide
      · by_cases hqe : q = pidE
        · subst hqe; decide
        · by_cases hqf : q = pidF
          · subst hqf; decide
          · by_cases hqa : q = pidA
            · subst hqa; decide
            · by_cases hqb : q = pidB
              · subst hqb; decide
              · have h1 : isPlayerInMatch mRival1 q = false := by
                  simp only [isPlayerInMatch, mRival1, pidA, pidB, pidC, pidD,
                    Bool.or_eq_false_iff, beq_eq_false_iff_ne, ne_eq, Option.some.injEq]
                  refine ⟨⟨⟨?_, ?_⟩, ?_⟩, ?_⟩ <;> intro h <;>
                    first
                      | exact hqa h.symm
                      | exact hqb h.symm
                      | exact hqc h.symm
                      | exact hqd h.symm
                have h2 : isPlayerInMatch mRival2 q = false := by
                  simp only [isPlayerInMatch, mRival2, pidA, pidB, pidE, pidF,
                    Bool.or_eq_false_iff, beq_eq_false_iff_ne, ne_eq, Option.some.injEq]
                  refine ⟨⟨⟨?_, ?_⟩, ?_⟩, ?_⟩ <;> intro h <;>
                    first
                      | exact hqa h.symm
                      | exact hqb h.symm
                      | exact hqe h.symm
                      | exact hqf h.symm
                rw [if_neg (by simp [h1]), if_neg (by simp [h2])]
                norm_num
/-- Bumping key `k` adds one to its counter and nothing else. -/
theorem cnt_bump (k k2 : String) :
    ∀ c : List (String × ℕ),
      cnt (bumpCount c k) k2 = cnt c k2 + (if k2 = k then 1 else 0) := by
  intro c
  induction c with
  | nil =>
    by_cases h : k2 = k
    · subst h; simp [bumpCount, cnt]
    · simp [bumpCount, cnt, List.find?]
      rw [show (k == k2) = false by simpa using fun hh => h hh.symm]
      simp [h]
  | cons e c ih =>
    rcases e with ⟨k1, v⟩
    by_cases h1 : k1 = k
    · subst h1
      simp only [bumpCount, beq_self_eq_true, if_true]
      by_cases h2 : k1 = k2
      · subst h2
        simp [cnt, List.find?]
      · unfold cnt
        simp only [List.find?]
        rw [show (k1 == k2) = false by simpa using h2]
        simp [show ¬(k2 = k1) from fun hh => h2 hh.symm]
    · rw [show bumpCount ((k1, v) :: c) k = (k1, v) :: bumpCount c k by
        simp [bumpCount, show (k1 == k) = false by simpa using h1]]
      by_cases h2 : k1 = k2
      · subst h2
        unfold cnt
        simp [List.find?, h1]
      · unfold cnt
        simp only [List.find?]
        rw [show (k1 == k2) = false by simpa using h2]
        exact ih
/-- Bumping either reuses an existing key or appends the new one. -/
theorem keys_bumpCount (k : String) :
    ∀ c : List (String × ℕ),
      (bumpCount c k).map Prod.fst =
        if k ∈ c.map Prod.fst then c.map Prod.fst else c.map Prod.fst ++ [k] := by
  intro c
  induction c with
  | nil => simp [bumpCount]
  | cons e c ih =>
    rcases e with ⟨k1, v⟩
    by_cases h1 : k1 = k
    · subst h1
      simp [bumpCount]
    · rw [show bumpCount ((k1, v) :: c) k = (k1, v) :: bumpCount c k by
        simp [bumpCount, show (k1 == k) = false by simpa using h1]]
      rw [List.map_cons, ih]
      by_cases hm : k ∈ c.map Prod.fst
      · rw [if_pos hm, List.map_cons,
          if_pos (List.mem_cons_of_mem _ hm)]
      · rw [if_neg hm, List.map_cons, if_neg ?_]
        · rfl
        · intro hk
          rcases List.mem_cons.mp hk with hk1 | hk2
          · exact h1 hk1.symm
          · exact hm hk2
/-- Bumping preserves distinctness of the keys. -/
theorem nodupKeys_bump (k : String) (c : List (String × ℕ))
    (h : (c.map Prod.fst).Nodup) : ((bumpCount c k).map Prod.fst).Nodup := by
  rw [keys_bumpCount]
  by_cases hm : k ∈ c.map Prod.fst
  · rw [if_pos hm]; exact h
  · rw [if_neg hm]
    simp [List.nodup_append, h, hm]
/-- With distinct keys, the counter of a stored entry is its value. -/
theorem cnt_of_mem :
    ∀ (c : List (String × ℕ)), (c.map Prod.fst).Nodup →
      ∀ e ∈ c, cnt c e.1 = e.2 := by
  intro c
  induction c with
  | nil => intro _ e he; cases he
  | cons hd tl ih =>
    intro hnd e he
    have hnd2 : (hd.1 :: tl.map Prod.fst).Nodup := by simpa using hnd
    rcases List.nodup_cons.mp hnd2 with ⟨hhd, htl⟩
    rcases List.mem_cons.mp he with rfl | he2
    · unfold cnt
      simp [List.find?]
    · have hne : hd.1 ≠ e.1 := by
        intro hq
        exact hhd (hq ▸ List.mem_map_of_mem Prod.fst he2)
      unfold cnt
      simp only [List.find?]
      rw [show (hd.1 == e.1) = false by simpa using hne]
      exact ih htl e he2
/-- A positive counter comes from a stored entry with that key. -/
theorem cnt_pos_entry (c : List (String × ℕ)) (k : String) (h : 0 < cnt c k) :
    ∃ v, (k, v) ∈ c ∧ cnt c k = v := by
  unfold cnt at h ⊢
  rcases hf : c.find? (fun e => e.1 == k) with _ | e
  · rw [hf] at h; simp at h
  · have he : e ∈ c := List.mem_of_find?_eq_some hf
    have hp := List.find?_some hf
    have hk : e.1 = k := by simpa using hp
    refine ⟨e.2, ?_, ?_⟩
    · rw [← hk]; exact he
    · rw [hf]; rfl
/-- With distinct keys, some counter reaches 10 iff the `.some`
check on the values succeeds. -/
theorem rival_any_iff (c : List (String × ℕ)) (hnd : (c.map Prod.fst).Nodup) :
    ((c.map Prod.snd).any fun v => 10 ≤ v) = true ↔ ∃ k, 10 ≤ cnt c k := by
  rw [List.any_eq_true]
  constructor
  · rintro ⟨v, hv, h10⟩
    rcases List.mem_map.mp hv with ⟨e, he, rfl⟩
    refine ⟨e.1, ?_⟩
    rw [cnt_of_mem c hnd e he]
    simpa using h10
  · rintro ⟨k, hk⟩
    rcases cnt_pos_entry c k (by omega) with ⟨v, hv, hcv⟩
    exact ⟨v, List.mem_map_of_mem Prod.snd hv, by simp [← hcv]; exact hk⟩
/-- Effect of the inner player loop of `hasRival` on one counter. -/
theorem rivalInner_cnt (pid : String) (m : Match) :
    ∀ (ps : List Player) (c : List (String × ℕ)) (k : String),
      cnt (ps.foldl (fun c p =>
          if p.id == pid then c
          else if isPlayerInMatch m p.id then bumpCount c p.id else c) c) k =
        cnt c k +
          ps.countP (fun p => p.id == k && !(p.id == pid) && isPlayerInMatch m p.id) := by
  intro ps
  induction ps with
  | nil => intro c k; simp
  | cons p ps ih =>
    intro c k
    rw [List.foldl_cons, ih, List.countP_cons]
    by_cases h1 : p.id = pid
    · rw [if_pos (by simpa using h1)]
      have hb : (p.id == k && !(p.id == pid) && isPlayerInMatch m p.id) = false := by
        simp [h1]
      rw [hb]
      simp
    · rw [if_neg (by simpa using h1)]
      by_cases h2 : isPlayerInMatch m p.id
      · rw [if_pos h2, cnt_bump]
        have hb : (p.id == k && !(p.id == pid) && isPlayerInMatch m p.id) = (p.id == k) := by
          simp [h1, h2]
        rw [hb]
        by_cases h3 : p.id = k
        · rw [show (p.id == k) = true by simpa using h3, if_pos h3.symm]
          simp
          omega
        · rw [show (p.id == k) = false by simpa using h3,
            if_neg (fun hh => h3 hh.symm)]
          simp
      · rw [if_neg h2]
        have hb : (p.id == k && !(p.id == pid) && isPlayerInMatch m p.id) = false := by
          simp [h2]
        rw [hb]
        simp
/-- Effect of the whole match loop of `hasRival` on one counter. -/
theorem rivalFold_cnt (pid : String) (ps : List Player) :
    ∀ (ms : List Match) (c : List (String × ℕ)) (k : String),
      cnt (ms.foldl (rivalScan pid ps) c) k =
        cnt c k +
          (ms.map (fun m =>
            if isPlayerInMatch m pid then
              ps.countP (fun p => p.id == k && !(p.id == pid) && isPlayerInMatch m p.id)
            else 0)).sum := by
  intro ms
  induction ms with
  | nil => intro c k; simp
  | cons m ms ih =>
    intro c k
    rw [List.foldl_cons, ih, List.map_cons, List.sum_cons]
    unfold rivalScan
    by_cases him : isPlayerInMatch m pid
    · rw [if_pos him, if_pos him, rivalInner_cnt]
      omega
    · rw [if_neg him, if_neg him]
      omega
/-- The inner player loop keeps the counter keys distinct. -/
theorem rivalInner_nodup (pid : String) (m : Match) :
    ∀ (ps : List Player) (c : List (String × ℕ)),
      (c.map Prod.fst).Nodup →
      (((ps.foldl (fun c p =>
          if p.id == pid then c
          else if isPlayerInMatch m p.id then bumpCount c p.id else c) c)).map
        Prod.fst).Nodup := by
  intro ps
  induction ps with
  | nil => intro c h; exact h
  | cons p ps ih =>
    intro c h
    rw [List.foldl_cons]
    apply ih
    by_cases h1 : p.id == pid
    · rw [if_pos h1]; exact h
    · rw [if_neg h1]
      by_cases h2 : isPlayerInMatch m p.id
      · rw [if_pos h2]; exact nodupKeys_bump p.id c h
      · rw [if_neg h2]; exact h
/-- The whole match loop keeps the counter keys distinct. -/
theorem rivalFold_nodup (pid : String) (ps : List Player) :
    ∀ (ms : List Match) (c : List (String × ℕ)),
      (c.map Prod.fst).Nodup →
      ((ms.foldl (rivalScan pid ps) c).map Prod.fst).Nodup := by
  intro ms
  induction ms with
  | nil => intro c h; exact h
  | cons m ms ih =>
    intro c h
    rw [List.foldl_cons]
    apply ih
    unfold rivalScan
    by_cases him : isPlayerInMatch m pid
    · rw [if_pos him]; exact rivalInner_nodup pid m ps c h
    · rw [if_neg him]; exact h
/-- With distinct player ids, the inner `countP` is an indicator. -/
theorem countP_id_pred (k pid : String) (m : Match) :
    ∀ ps : List Player, (ps.map Player.id).Nodup →
      ps.countP (fun p => p.id == k && !(p.id == pid) && isPlayerInMatch m p.id) =
        if decide (k ∈ ps.map Player.id) && !(k == pid) && isPlayerInMatch m k then 1
        else 0 := by
  intro ps
  induction ps with
  | nil => intro _; simp
  | cons p ps ih =>
    intro hnd
    have hnd2 : (p.id :: ps.map Player.id).Nodup := by simpa using hnd
    rcases List.nodup_cons.mp hnd2 with ⟨hp, htl⟩
    rw [List.countP_cons]
    by_cases hk : p.id = k
    · subst hk
      have htl0 : ps.countP
          (fun q => q.id == p.id && !(q.id == pid) && isPlayerInMatch m q.id) = 0 := by
        rw [List.countP_eq_zero]
        intro q hq
        have hne : q.id ≠ p.id := by
          intro hqk
          have hmem2 : q.id ∈ ps.map Player.id := List.mem_map_of_mem Player.id hq
          rw [hqk] at hmem2
          exact hp hmem2
        simp [hne]
      rw [htl0, List.map_cons]
      by_cases h1 : p.id = pid
      · simp [h1]
      · by_cases h2 : isPlayerInMatch m p.id
        · simp [h1, h2]
        · simp [h1, h2]
    · have hhead : (p.id == k && !(p.id == pid) && isPlayerInMatch m p.id) = false := by
        simp [hk]
      rw [hhead, List.map_cons]
      have hmm : decide (k ∈ p.id :: ps.map Player.id) = decide (k ∈ ps.map Player.id) := by
        simp [List.mem_cons, show ¬(k = p.id) from fun hh => hk hh.symm]
      rw [hmm, ih htl]
      simp
/-- Summing a 0/1 indicator over a list counts the satisfying elements. -/
theorem sum_ite_eq_countP (p : Match → Bool) :
    ∀ ms : List Match, (ms.map (fun m => if p m then 1 else 0)).sum = ms.countP p := by
  intro ms
  induction ms with
  | nil => simp
  | cons m ms ih =>
    rw [List.map_cons, List.sum_cons, List.countP_cons, ih]
    by_cases h : p m <;> simp [h]
    omega
/-- The final counter of `hasRival` for key `k`: the number of matches
shared with `k`, provided `k` is another player's id. -/
theorem rival_cnt_final (pid : String) (ms : List Match) (ps : List Player)
    (hnd : (ps.map Player.id).Nodup) (k : String) :
    cnt (ms.foldl (rivalScan pid ps) []) k =
      if decide (k ∈ ps.map Player.id) && !(k == pid) then sharedCount pid k ms else 0 := by
  rw [rivalFold_cnt]
  have hzero : cnt [] k = 0 := rfl
  rw [hzero, Nat.zero_add]
  rcases hb : (decide (k ∈ ps.map Player.id) && !(k == pid) : Bool) with _ | _
  · simp only [Bool.false_eq_true, if_false]
    apply List.sum_eq_zero
    intro x hx
    rcases List.mem_map.mp hx with ⟨m, _, rfl⟩
    rw [countP_id_pred k pid m ps hnd, hb]
    simp
  · rw [if_pos rfl]
    have hpt : ∀ m ∈ ms,
        (if isPlayerInMatch m pid then
          ps.countP (fun p => p.id == k && !(p.id == pid) && isPlayerInMatch m p.id)
        else 0) =
          (if (isPlayerInMatch m pid && isPlayerInMatch m k : Bool) then 1 else 0) := by
      intro m _
      rw [countP_id_pred k pid m ps hnd, hb]
      by_cases him : isPlayerInMatch m pid <;> by_cases hik : isPlayerInMatch m k <;>
        simp [him, hik]
    rw [List.map_congr_left hpt, sum_ite_eq_countP]
    rfl
/-- C2, amended: the `rival` badge unlocks iff some *other player* —
opponent or doubles partner alike — appears in at least 10 of the given
player's matches (`hasRival` counts every co-participant, not only
players on the opposing side). -/
theorem hasRival_amended_shared_matches (pid : String) (ms : List Match) (ps : List Player)
    (hnd : (ps.map Player.id).Nodup) :
    hasRival pid ms ps = true ↔
      ∃ p ∈ ps, p.id ≠ pid ∧ 10 ≤ sharedCount pid p.id ms := by
  unfold hasRival
  rw [rival_any_iff _ (rivalFold_nodup pid ps ms [] (by simp))]
  constructor
  · rintro ⟨k, hk⟩
    rw [rival_cnt_final pid ms ps hnd k] at hk
    rcases hb : (decide (k ∈ ps.map Player.id) && !(k == pid) : Bool) with _ | _
    · rw [hb] at hk
      simp at hk
    · rw [hb] at hk
      simp only [if_true] at hk
      have hb2 : decide (k ∈ ps.map Player.id) = true ∧ (!(k == pid)) = true := by
        simpa [Bool.and_eq_true] using hb
      have hmem : k ∈ ps.map Player.id := of_decide_eq_true hb2.1
      have hkpid : k ≠ pid := by simpa using hb2.2
      rcases List.mem_map.mp hmem with ⟨p, hp, hpk⟩
      refine ⟨p, hp, ?_, ?_⟩
      · rw [hpk]; exact hkpid
      · rw [hpk]; exact hk
  · rintro ⟨p, hp, hne, hcnt⟩
    refine ⟨p.id, ?_⟩
    rw [rival_cnt_final pid ms ps hnd p.id]
    have hb : (decide (p.id ∈ ps.map Player.id) && !(p.id == pid) : Bool) = true := by
      simp only [Bool.and_eq_true]
      exact ⟨decide_eq_true (List.mem_map_of_mem Player.id hp), by simpa using hne⟩
    rw [hb]
    simpa using hcnt
/-- Witness for the amended C2 at the concrete rival scenario. -/
theorem hasRival_amended_witness :
    (playersRival.map Player.id).Nodup ∧
      (hasRival pidA msRival playersRival = true ↔
        ∃ p ∈ playersRival, p.id ≠ pidA ∧ 10 ≤ sharedCount pidA p.id msRival) :=
  ⟨by decide, hasRival_amended_shared_matches pidA msRival playersRival (by decide)⟩
/-- `NaN` loses every `>` comparison on the right. -/
theorem JsNum.gt_nan_right (x : JsNum) : x.gt JsNum.nan = false := by
  cases x <;> rfl
/-- `NaN` loses every `>` comparison on the left. -/
theorem JsNum.gt_nan_left (x : JsNum) : JsNum.nan.gt x = false := by
  cases x <;> rfl
/-- Adding `NaN` on the right gives `NaN`. -/
theorem JsNum.add_nan (x : JsNum) : x.add JsNum.nan = JsNum.nan := by
  cases x <;> rfl
/-- Adding `NaN` on the left gives `NaN`. -/
theorem JsNum.nan_add (x : JsNum) : JsNum.nan.add x = JsNum.nan := by
  cases x <;> rfl
/-- Replacing a NaN set does not change who wins the set. -/
theorem gt_replaceBadSet (side : Bool) (s : SetScore) :
    (mineOf side (replaceBadSet s)).gt (theirsOf side (replaceBadSet s)) =
      (mineOf side s).gt (theirsOf side s) := by
  by_cases h : s.p1 = JsNum.nan ∨ s.p2 = JsNum.nan
  · rw [show replaceBadSet s = { p1 := JsNum.num 0, p2 := JsNum.num 0 } from by
      simp [replaceBadSet, h]]
    rcases h with h | h <;> cases side <;>
      simp [mineOf, theirsOf, h, JsNum.gt_nan_left, JsNum.gt_nan_right, JsNum.gt]
  · rw [show replaceBadSet s = s from by simp [replaceBadSet, h]]
/-- The strict JavaScript `>` is asymmetric. -/
theorem JsNum.gt_asymm (x y : JsNum) (h : x.gt y = true) : y.gt x = false := by
  cases x with
  | nan => simp [JsNum.gt] at h
  | num a =>
    cases y with
    | nan => simp [JsNum.gt]
    | num b =>
      simp only [JsNum.gt, decide_eq_true_eq] at h
      simp only [JsNum.gt, decide_eq_false_iff_not]
      exact not_lt.mpr h.le
/-- One set adds its win indicator to `setsWon`. -/
theorem setStep_setsWon (side : Bool) (a : SAcc) (s : SetScore) :
    (setStep side a s).setsWon =
      a.setsWon + (if (mineOf side s).gt (theirsOf side s) then 1 else 0) := by
  simp only [setStep, mineOf, theirsOf]
  split_ifs <;> simp_all
/-- One set adds its loss indicator to `setsLost`. -/
theorem setStep_setsLost (side : Bool) (a : SAcc) (s : SetScore) :
    (setStep side a s).setsLost =
      a.setsLost + (if (theirsOf side s).gt (mineOf side s) then 1 else 0) := by
  cases side
  · by_cases h1 : s.p2.gt s.p1 = true
    · have h2 := JsNum.gt_asymm _ _ h1
      simp [setStep, mineOf, theirsOf, h1, h2]
    · by_cases h2 : s.p1.gt s.p2 = true <;> simp [setStep, mineOf, theirsOf, h1, h2]
  · by_cases h1 : s.p1.gt s.p2 = true
    · have h2 := JsNum.gt_asymm _ _ h1
      simp [setStep, mineOf, theirsOf, h1, h2]
    · by_cases h2 : s.p2.gt s.p1 = true <;> simp [setStep, mineOf, theirsOf, h1, h2]
/-- The set loop counts the sets won. -/
theorem setsFold_setsWon (side : Bool) (l : List SetScore) :
    ∀ a : SAcc, (l.foldl (setStep side) a).setsWon =
      a.setsWon + l.countP (fun s => (mineOf side s).gt (theirsOf side s)) := by
  induction l with
  | nil => intro a; simp
  | cons s l ih =>
    intro a
    rw [List.foldl_cons, ih, setStep_setsWon, List.countP_cons]
    by_cases h : (mineOf side s).gt (theirsOf side s) <;> simp [h]
    omega
/-- The set loop counts the sets lost. -/
theorem setsFold_setsLost (side : Bool) (l : List SetScore) :
    ∀ a : SAcc, (l.foldl (setStep side) a).setsLost =
      a.setsLost + l.countP (fun s => (theirsOf side s).gt (mineOf side s)) := by
  induction l with
  | nil => intro a; simp
  | cons s l ih =>
    intro a
    rw [List.foldl_cons, ih, setStep_setsLost, List.countP_cons]
    by_cases h : (theirsOf side s).gt (mineOf side s) <;> simp [h]
    omega
/-- The win/loss/draw branch of the match loop leaves `setsWon`,
`setsLost`, `pointsWon` and `pointsLost` untouched. -/
theorem matchBranch_preserves (pid : String) (a : SAcc) (m : Match) :
    (if m.winnerId.isNone then
        { a with draws := a.draws + 1, recentForm := a.recentForm ++ [Form.D] }
      else if wonMatch m pid then
        { a with wins := a.wins + 1, recentForm := a.recentForm ++ [Form.W] }
      else
        { a with losses := a.losses + 1, recentForm := a.recentForm ++ [Form.L] }).setsWon =
        a.setsWon ∧
      (if m.winnerId.isNone then
        { a with draws := a.draws + 1, recentForm := a.recentForm ++ [Form.D] }
      else if wonMatch m pid then
        { a with wins := a.wins + 1, recentForm := a.recentForm ++ [Form.W] }
      else
        { a with losses := a.losses + 1, recentForm := a.recentForm ++ [Form.L] }).setsLost =
        a.setsLost ∧
      (if m.winnerId.isNone then
        { a with draws := a.draws + 1, recentForm := a.recentForm ++ [Form.D] }
      else if wonMatch m pid then
        { a with wins := a.wins + 1, recentForm := a.recentForm ++ [Form.W] }
      else
        { a with losses := a.losses + 1, recentForm := a.recentForm ++ [Form.L] }).pointsWon =
        a.pointsWon ∧
      (if m.winnerId.isNone then
        { a with draws := a.draws + 1, recentForm := a.recentForm ++ [Form.D] }
      else if wonMatch m pid then
        { a with wins := a.wins + 1, recentForm := a.recentForm ++ [Form.W] }
      else
        { a with losses := a.losses + 1, recentForm := a.recentForm ++ [Form.L] }).pointsLost =
        a.pointsLost := by
  split_ifs <;> exact ⟨rfl, rfl, rfl, rfl⟩
/-- One match adds its set-win count to `setsWon`. -/
theorem matchStep_setsWon (pid : String) (a : SAcc) (m : Match) :
    (matchStep pid a m).setsWon =
      a.setsWon + m.sets.countP (fun s =>
        (mineOf (isP1Side m pid) s).gt (theirsOf (isP1Side m pid) s)) := by
  simp only [matchStep, mineOf, theirsOf]
  rw [setsFold_setsWon, (matchBranch_preserves pid a m).1]
  rfl
/-- One match adds its set-loss count to `setsLost`. -/
theorem matchStep_setsLost (pid : String) (a : SAcc) (m : Match) :
    (matchStep pid a m).setsLost =
      a.setsLost + m.sets.countP (fun s =>
        (theirsOf (isP1Side m pid) s).gt (mineOf (isP1Side m pid) s)) := by
  simp only [matchStep, mineOf, theirsOf]
  rw [setsFold_setsLost, (matchBranch_preserves pid a m).2.1]
  rfl
/-- The match loop sums the per-match set-win counts. -/
theorem foldl_setsWon (pid : String) (l : List Match) :
    ∀ a : SAcc, (l.foldl (matchStep pid) a).setsWon =
      a.setsWon + (l.map (fun m => m.sets.countP (fun s =>
        (mineOf (isP1Side m pid) s).gt (theirsOf (isP1Side m pid) s)))).sum := by
  induction l with
  | nil => intro a; simp
  | cons m l ih =>
    intro a
    rw [List.foldl_cons, ih, matchStep_setsWon, List.map_cons, List.sum_cons]
    omega
/-- The match loop sums the per-match set-loss counts. -/
theorem foldl_setsLost (pid : String) (l : List Match) :
    ∀ a : SAcc, (l.foldl (matchStep pid) a).setsLost =
      a.setsLost + (l.map (fun m => m.sets.countP (fun s =>
        (theirsOf (isP1Side m pid) s).gt (mineOf (isP1Side m pid) s)))).sum := by
  induction l with
  | nil => intro a; simp
  | cons m l ih =>
    intro a
    rw [List.foldl_cons, ih, matchStep_setsLost, List.map_cons, List.sum_cons]
    omega
/-- Filtering by participation commutes with set replacement. -/
theorem filter_replaceBadSets (pid : String) (ms : List Match) :
    (ms.map replaceBadSets).filter (fun m => isPlayerInMatch m pid) =
      (ms.filter (fun m => isPlayerInMatch m pid)).map replaceBadSets := by
  rw [List.filter_map]
  rfl
/-- Per-set win counting is invariant under NaN replacement. -/
theorem countP_sets_replace (side : Bool) (sets : List SetScore) :
    (sets.map replaceBadSet).countP
        (fun s => (mineOf side s).gt (theirsOf side s)) =
      sets.countP (fun s => (mineOf side s).gt (theirsOf side s)) := by
  rw [List.countP_map]
  induction sets with
  | nil => rfl
  | cons s l ih =>
    rw [List.countP_cons, List.countP_cons, ih]
    simp only [Function.comp]
    simp only [gt_replaceBadSet]
/-- Replacing a NaN set does not change who loses the set. -/
theorem gt_replaceBadSet_lost (side : Bool) (s : SetScore) :
    (theirsOf side (replaceBadSet s)).gt (mineOf side (replaceBadSet s)) =
      (theirsOf side s).gt (mineOf side s) := by
  cases side
  · exact gt_replaceBadSet true s
  · exact gt_replaceBadSet false s
/-- Per-set loss counting is invariant under NaN replacement. -/
theorem countP_sets_replace_lost (side : Bool) (sets : List SetScore) :
    (sets.map replaceBadSet).countP
        (fun s => (theirsOf side s).gt (mineOf side s)) =
      sets.countP (fun s => (theirsOf side s).gt (mineOf side s)) := by
  rw [List.countP_map]
  induction sets with
  | nil => rfl
  | cons s l ih =>
    rw [List.countP_cons, List.countP_cons, ih]
    simp only [Function.comp]
    simp only [gt_replaceBadSet_lost]
/-- The 11-0 test of `hasCleanSweep` is invariant under NaN replacement
(a NaN set fails it, and so does its 0-0 replacement). -/
theorem eqNum_replaceBadSet (side : Bool) (s : SetScore) :
    ((mineOf side (replaceBadSet s)).eqNum 11 && (theirsOf side (replaceBadSet s)).eqNum 0) =
      ((mineOf side s).eqNum 11 && (theirsOf side s).eqNum 0) := by
  by_cases h : s.p1 = JsNum.nan ∨ s.p2 = JsNum.nan
  · rw [show replaceBadSet s = { p1 := JsNum.num 0, p2 := JsNum.num 0 } from by
      simp [replaceBadSet, h]]
    rcases h with h | h <;> cases side <;>
      simp [mineOf, theirsOf, h, JsNum.eqNum]
  · rw [show replaceBadSet s = s from by simp [replaceBadSet, h]]
/-- The clean-sweep check of one match is invariant under NaN replacement. -/
theorem cleanSweepBody_replace (pid : String) (m : Match) :
    cleanSweepBody pid (replaceBadSets m) = cleanSweepBody pid m := by
  simp only [cleanSweepBody, replaceBadSets, isP1Side]
  rw [show (m.sets.map replaceBadSet).isEmpty = m.sets.isEmpty from by
    cases hs : m.sets <;> rfl]
  by_cases h1 : m.winnerId.isNone || m.sets.isEmpty
  · rw [if_pos h1, if_pos h1]
  · rw [if_neg h1, if_neg h1]
    by_cases h2 : (!(if m.isDoubles then
        (if m.winnerId == some m.player1Id then
          (m.player1Id == pid || m.player3Id == some pid)
        else !(m.player1Id == pid || m.player3Id == some pid))
      else m.winnerId == some pid) : Bool)
    · rw [if_pos h2, if_pos h2]
    · rw [if_neg h2, if_neg h2]
      rw [List.all_map]
      induction m.sets with
      | nil => rfl
      | cons s l ih =>
        rw [List.all_cons, List.all_cons, ih]
        simp only [Function.comp]
        rw [eqNum_replaceBadSet]
/-- `hasCleanSweep` is invariant under NaN replacement. -/
theorem hasCleanSweep_replace (pid : String) (l : List Match) :
    hasCleanSweep pid (l.map replaceBadSets) = hasCleanSweep pid l := by
  unfold hasCleanSweep
  rw [List.any_map]
  induction l with
  | nil => rfl
  | cons m l ih =>
    rw [List.any_cons, List.any_cons, ih]
    simp only [Function.comp]
    rw [cleanSweepBody_replace]
/-- `computeH2H` never reads set scores, so NaN replacement is invisible. -/
theorem computeH2H_replace (a b : String) (ms : List Match) :
    computeH2H a b (ms.map replaceBadSets) = computeH2H a b ms := by
  simp only [computeH2H]
  rw [show (ms.map replaceBadSets).filter
        (fun m => isPlayerInMatch m a && isPlayerInMatch m b) =
      (ms.filter (fun m => isPlayerInMatch m a && isPlayerInMatch m b)).map replaceBadSets from
    by rw [List.filter_map]; rfl]
  rw [List.foldl_map, List.length_map]
  rfl
/-- A NaN `pointsWon` stays NaN through one set. -/
theorem setStep_pointsWon_nan (side : Bool) (a : SAcc) (s : SetScore)
    (h : a.pointsWon = JsNum.nan) : (setStep side a s).pointsWon = JsNum.nan := by
  simp only [setStep]
  split_ifs <;> simp [h, JsNum.nan_add]
/-- A NaN score on the player's side makes `pointsWon` NaN. -/
theorem setStep_pointsWon_trigger (side : Bool) (a : SAcc) (s : SetScore)
    (h : mineOf side s = JsNum.nan) : (setStep side a s).pointsWon = JsNum.nan := by
  cases side
  · have h2 : s.p2 = JsNum.nan := h
    simp only [setStep]
    split_ifs <;> simp_all [JsNum.add_nan]
  · have h2 : s.p1 = JsNum.nan := h
    simp only [setStep]
    split_ifs <;> simp_all [JsNum.add_nan]
/-- A NaN `pointsLost` stays NaN through one set. -/
theorem setStep_pointsLost_nan (side : Bool) (a : SAcc) (s : SetScore)
    (h : a.pointsLost = JsNum.nan) : (setStep side a s).pointsLost = JsNum.nan := by
  simp only [setStep]
  split_ifs <;> simp [h, JsNum.nan_add]
/-- A NaN score on the opponent side makes `pointsLost` NaN. -/
theorem setStep_pointsLost_trigger (side : Bool) (a : SAcc) (s : SetScore)
    (h : theirsOf side s = JsNum.nan) : (setStep side a s).pointsLost = JsNum.nan := by
  cases side
  · have h2 : s.p1 = JsNum.nan := h
    simp only [setStep]
    split_ifs <;> simp_all [JsNum.add_nan]
  · have h2 : s.p2 = JsNum.nan := h
    simp only [setStep]
    split_ifs <;> simp_all [JsNum.add_nan]
/-- NaN `pointsWon` survives the whole set loop. -/
theorem setsFold_pointsWon_nan (side : Bool) (l : List SetScore) :
    ∀ a : SAcc, a.pointsWon = JsNum.nan →
      (l.foldl (setStep side) a).pointsWon = JsNum.nan := by
  induction l with
  | nil => intro a h; exact h
  | cons s l ih =>
    intro a h
    rw [List.foldl_cons]
    exact ih _ (setStep_pointsWon_nan side a s h)
/-- NaN `pointsLost` survives the whole set loop. -/
theorem setsFold_pointsLost_nan (side : Bool) (l : List SetScore) :
    ∀ a : SAcc, a.pointsLost = JsNum.nan →
      (l.foldl (setStep side) a).pointsLost = JsNum.nan := by
  induction l with
  | nil => intro a h; exact h
  | cons s l ih =>
    intro a h
    rw [List.foldl_cons]
    exact ih _ (setStep_pointsLost_nan side a s h)
/-- Any NaN player-side score in the list poisons `pointsWon`. -/
theorem setsFold_pointsWon_trigger (side : Bool) (l : List SetScore) :
    ∀ a : SAcc, (∃ s ∈ l, mineOf side s = JsNum.nan) →
      (l.foldl (setStep side) a).pointsWon = JsNum.nan := by
  induction l with
  | nil => rintro a ⟨s, hs, _⟩; cases hs
  | cons s2 l ih =>
    rintro a ⟨s, hs, hnan⟩
    rw [List.foldl_cons]
    rcases List.mem_cons.mp hs with rfl | hs2
    · exact setsFold_pointsWon_nan side l _ (setStep_pointsWon_trigger side a s hnan)
    · exact ih _ ⟨s, hs2, hnan⟩
/-- Any NaN opponent-side score in the list poisons `pointsLost`. -/
theorem setsFold_pointsLost_trigger (side : Bool) (l : List SetScore) :
    ∀ a : SAcc, (∃ s ∈ l, theirsOf side s = JsNum.nan) →
      (l.foldl (setStep side) a).pointsLost = JsNum.nan := by
  induction l with
  | nil => rintro a ⟨s, hs, _⟩; cases hs
  | cons s2 l ih =>
    rintro a ⟨s, hs, hnan⟩
    rw [List.foldl_cons]
    rcases List.mem_cons.mp hs with rfl | hs2
    · exact setsFold_pointsLost_nan side l _ (setStep_pointsLost_trigger side a s hnan)
    · exact ih _ ⟨s, hs2, hnan⟩
/-- NaN `pointsWon` survives one whole match. -/
theorem matchStep_pointsWon_nan (pid : String) (a : SAcc) (m : Match)
    (h : a.pointsWon = JsNum.nan) : (matchStep pid a m).pointsWon = JsNum.nan := by
  simp only [matchStep]
  apply setsFold_pointsWon_nan
  rw [(matchBranch_preserves pid a m).2.2.1]
  exact h
/-- NaN `pointsLost` survives one whole match. -/
theorem matchStep_pointsLost_nan (pid : String) (a : SAcc) (m : Match)
    (h : a.pointsLost = JsNum.nan) : (matchStep pid a m).pointsLost = JsNum.nan := by
  simp only [matchStep]
  apply setsFold_pointsLost_nan
  rw [(matchBranch_preserves pid a m).2.2.2]
  exact h
/-- A NaN player-side score in one of the match's sets poisons `pointsWon`. -/
theorem matchStep_pointsWon_trigger (pid : String) (a : SAcc) (m : Match)
    (h : ∃ s ∈ m.sets, mineOf (isP1Side m pid) s = JsNum.nan) :
    (matchStep pid a m).pointsWon = JsNum.nan := by
  simp only [matchStep]
  exact setsFold_pointsWon_trigger _ _ _ h
/-- A NaN opponent-side score in one of the match's sets poisons `pointsLost`. -/
theorem matchStep_pointsLost_trigger (pid : String) (a : SAcc) (m : Match)
    (h : ∃ s ∈ m.sets, theirsOf (isP1Side m pid) s = JsNum.nan) :
    (matchStep pid a m).pointsLost = JsNum.nan := by
  simp only [matchStep]
  exact setsFold_pointsLost_trigger _ _ _ h
/-- NaN `pointsWon` survives the whole match loop. -/
theorem foldl_pointsWon_nan (pid : String) (l : List Match) :
    ∀ a : SAcc, a.pointsWon = JsNum.nan →
      (l.foldl (matchStep pid) a).pointsWon = JsNum.nan := by
  induction l with
  | nil => intro a h; exact h
  | cons m l ih =>
    intro a h
    rw [List.foldl_cons]
    exact ih _ (matchStep_pointsWon_nan pid a m h)
/-- NaN `pointsLost` survives the whole match loop. -/
theorem foldl_pointsLost_nan (pid : String) (l : List Match) :
    ∀ a : SAcc, a.pointsLost = JsNum.nan →
      (l.foldl (matchStep pid) a).pointsLost = JsNum.nan := by
  induction l with
  | nil => intro a h; exact h
  | cons m l ih =>
    intro a h
    rw [List.foldl_cons]
    exact ih _ (matchStep_pointsLost_nan pid a m h)
/-- A NaN player-side score in any processed match poisons `pointsWon`. -/
theorem foldl_pointsWon_trigger (pid : String) (l : List Match) :
    ∀ a : SAcc, (∃ m ∈ l, ∃ s ∈ m.sets, mineOf (isP1Side m pid) s = JsNum.nan) →
      (l.foldl (matchStep pid) a).pointsWon = JsNum.nan := by
  induction l with
  | nil => rintro a ⟨m, hm, _⟩; cases hm
  | cons m2 l ih =>
    rintro a ⟨m, hm, hs⟩
    rw [List.foldl_cons]
    rcases List.mem_cons.mp hm with rfl | hm2
    · exact foldl_pointsWon_nan pid l _ (matchStep_pointsWon_trigger pid a m hs)
    · exact ih _ ⟨m, hm2, hs⟩
/-- A NaN opponent-side score in any processed match poisons `pointsLost`. -/
theorem foldl_pointsLost_trigger (pid : String) (l : List Match) :
    ∀ a : SAcc, (∃ m ∈ l, ∃ s ∈ m.sets, theirsOf (isP1Side m pid) s = JsNum.nan) →
      (l.foldl (matchStep pid) a).pointsLost = JsNum.nan := by
  induction l with
  | nil => rintro a ⟨m, hm, _⟩; cases hm
  | cons m2 l ih =>
    rintro a ⟨m, hm, hs⟩
    rw [List.foldl_cons]
    rcases List.mem_cons.mp hm with rfl | hm2
    · exact foldl_pointsLost_nan pid l _ (matchStep_pointsLost_trigger pid a m hs)
    · exact ih _ ⟨m, hm2, hs⟩
/-- Closed form of `computeStats`'s `setsWon`. -/
theorem computeStats_setsWon (pid : String) (ms : List Match) :
    (computeStats pid ms).setsWon =
      ((ms.filter (fun m => isPlayerInMatch m pid)).map (fun m =>
        m.sets.countP (fun s =>
          (mineOf (isP1Side m pid) s).gt (theirsOf (isP1Side m pid) s)))).sum := by
  rw [show (computeStats pid ms).setsWon =
      ((ms.filter (fun m => isPlayerInMatch m pid)).foldl (matchStep pid) initSAcc).setsWon
    from rfl]
  rw [foldl_setsWon]
  simp [initSAcc]
/-- Closed form of `computeStats`'s `setsLost`. -/
theorem computeStats_setsLost (pid : String) (ms : List Match) :
    (computeStats pid ms).setsLost =
      ((ms.filter (fun m => isPlayerInMatch m pid)).map (fun m =>
        m.sets.countP (fun s =>
          (theirsOf (isP1Side m pid) s).gt (mineOf (isP1Side m pid) s)))).sum := by
  rw [show (computeStats pid ms).setsLost =
      ((ms.filter (fun m => isPlayerInMatch m pid)).foldl (matchStep pid) initSAcc).setsLost
    from rfl]
  rw [foldl_setsLost]
  simp [initSAcc]
/-- `setsWon` is invariant under NaN-set replacement. -/
theorem setsWon_replace_invariant (pid : String) (ms : List Match) :
    (computeStats pid (ms.map replaceBadSets)).setsWon = (computeStats pid ms).setsWon := by
  rw [computeStats_setsWon, computeStats_setsWon, filter_replaceBadSets, List.map_map]
  have hpt : ∀ m ∈ ms.filter (fun m => isPlayerInMatch m pid),
      ((fun m => m.sets.countP (fun s =>
          (mineOf (isP1Side m pid) s).gt (theirsOf (isP1Side m pid) s))) ∘ replaceBadSets) m =
        m.sets.countP (fun s =>
          (mineOf (isP1Side m pid) s).gt (theirsOf (isP1Side m pid) s)) := by
    intro m _
    show (m.sets.map replaceBadSet).countP (fun s =>
        (mineOf (isP1Side m pid) s).gt (theirsOf (isP1Side m pid) s)) = _
    exact countP_sets_replace _ _
  rw [List.map_congr_left hpt]
/-- `setsLost` is invariant under NaN-set replacement. -/
theorem setsLost_replace_invariant (pid : String) (ms : List Match) :
    (computeStats pid (ms.map replaceBadSets)).setsLost = (computeStats pid ms).setsLost := by
  rw [computeStats_setsLost, computeStats_setsLost, filter_replaceBadSets, List.map_map]
  have hpt : ∀ m ∈ ms.filter (fun m => isPlayerInMatch m pid),
      ((fun m => m.sets.countP (fun s =>
          (theirsOf (isP1Side m pid) s).gt (mineOf (isP1Side m pid) s))) ∘ replaceBadSets) m =
        m.sets.countP (fun s =>
          (theirsOf (isP1Side m pid) s).gt (mineOf (isP1Side m pid) s)) := by
    intro m _
    show (m.sets.map replaceBadSet).countP (fun s =>
        (theirsOf (isP1Side m pid) s).gt (mineOf (isP1Side m pid) s)) = _
    exact countP_sets_replace_lost _ _
  rw [List.map_congr_left hpt]
/-- A NaN score on the player's side of some of their sets makes
`pointsWon` NaN. -/
theorem computeStats_pointsWon_nan (pid : String) (ms : List Match)
    (h : ∃ m ∈ ms, isPlayerInMatch m pid = true ∧
      ∃ s ∈ m.sets, mineOf (isP1Side m pid) s = JsNum.nan) :
    (computeStats pid ms).pointsWon = JsNum.nan := by
  rw [show (computeStats pid ms).pointsWon =
      ((ms.filter (fun m => isPlayerInMatch m pid)).foldl (matchStep pid) initSAcc).pointsWon
    from rfl]
  apply foldl_pointsWon_trigger
  rcases h with ⟨m, hm, hin, hs⟩
  exact ⟨m, List.mem_filter.mpr ⟨hm, hin⟩, hs⟩
/-- A NaN score on the opponent side of some of the player's sets makes
`pointsLost` NaN. -/
theorem computeStats_pointsLost_nan (pid : String) (ms : List Match)
    (h : ∃ m ∈ ms, isPlayerInMatch m pid = true ∧
      ∃ s ∈ m.sets, theirsOf (isP1Side m pid) s = JsNum.nan) :
    (computeStats pid ms).pointsLost = JsNum.nan := by
  rw [show (computeStats pid ms).pointsLost =
      ((ms.filter (fun m => isPlayerInMatch m pid)).foldl (matchStep pid) initSAcc).pointsLost
    from rfl]
  apply foldl_pointsLost_trigger
  rcases h with ⟨m, hm, hin, hs⟩
  exact ⟨m, List.mem_filter.mpr ⟨hm, hin⟩, hs⟩
/-- C3, counterexample: `computeStats` does NOT treat a NaN-scored set
like a 0-0 set for the point sums — `pointsWon` becomes NaN instead of
the 0 the replacement would give. -/
theorem computeStats_nan_points_counterexample :
    (computeStats pidA [mNanSet]).pointsWon ≠
      (computeStats pidA ([mNanSet].map replaceBadSets)).pointsWon := by
  decide
/-- C3, amended: with NaN-scored sets nothing throws; the set-win tallies
(`setsWon`/`setsLost`), `computeH2H` and the clean-sweep badge agree
exactly with the 0-0 replacement; but `pointsWon`/`pointsLost` propagate
NaN through their sums, and `comeback_king` treats a NaN set among the
first two as a set lost, while its 0-0 replacement counts as not lost. -/
theorem computeStats_nan_amended :
    (∀ (pid : String) (ms : List Match),
        (computeStats pid (ms.map replaceBadSets)).setsWon =
            (computeStats pid ms).setsWon ∧
          (computeStats pid (ms.map replaceBadSets)).setsLost =
            (computeStats pid ms).setsLost)
    ∧ (∀ (a b : String) (ms : List Match),
        computeH2H a b (ms.map replaceBadSets) = computeH2H a b ms)
    ∧ (∀ (pid : String) (l : List Match),
        hasCleanSweep pid (l.map replaceBadSets) = hasCleanSweep pid l)
    ∧ (∀ (pid : String) (ms : List Match),
        (∃ m ∈ ms, isPlayerInMatch m pid = true ∧
            ∃ s ∈ m.sets, mineOf (isP1Side m pid) s = JsNum.nan) →
          (computeStats pid ms).pointsWon = JsNum.nan)
    ∧ (∀ (pid : String) (ms : List Match),
        (∃ m ∈ ms, isPlayerInMatch m pid = true ∧
            ∃ s ∈ m.sets, theirsOf (isP1Side m pid) s = JsNum.nan) →
          (computeStats pid ms).pointsLost = JsNum.nan)
    ∧ hasComeback pidA [mComeback] = true
    ∧ hasComeback pidA [replaceBadSets mComeback] = false := by
  refine ⟨fun pid ms => ⟨setsWon_replace_invariant pid ms, setsLost_replace_invariant pid ms⟩,
    computeH2H_replace, hasCleanSweep_replace, computeStats_pointsWon_nan,
    computeStats_pointsLost_nan, by decide, by decide⟩
/-- Witness for the amended C3 at a concrete NaN input. -/
theorem computeStats_nan_amended_witness :
    (computeStats pidA [mNanSet]).pointsWon = JsNum.nan :=
  computeStats_nan_amended.2.2.2.1 pidA [mNanSet] (by decide)
